import Mathlib

/-!
Bank Management System: record store, account operations and transaction log.

A shallow embedding of `bank_system_enhanced.c`.

Modelling conventions.

* `accounts.dat` is an array of fixed-size `Account` records.  It is modelled as
  `Option (List Account)`: `none` is "the file does not exist" (every `fopen` for
  reading fails), `some xs` is a file holding the records `xs` in file order.
* `transactions.txt` is modelled as the list of the lines appended to it, each line
  kept as the arguments `log_transaction` was called with.  The time stamp that
  `log_transaction` adds comes from the wall clock and is left out of the model.
* `double` amounts are modelled by `Double`, an executable model of IEEE 754 binary64:
  finite values with a sign (so both zeros), the two infinities and one NaN, with
  `+`, `-`, `*`, `/` rounded to nearest, ties to even, and the comparisons of C
  (every comparison with NaN is false).  `read_double` uses `strtod`, which accepts
  `nan` and `inf`, so every `Double` can be typed at an amount prompt.
* `int` account numbers are modelled by `Int`.  `get_next_acc_no` computes `max + 1`
  without wrap-around: in a state reached from the empty store the result is
  `1001 + number of records`, so the `int` range is left only after more than two
  thousand million accounts have been created.
* Strings are the lines as `read_line` returns them.
* Each interactive function becomes a function of the state and of the values the user
  types at its prompts; it returns the new state and the message printed.
* An existing file can always be opened, read and written; the only I/O failure in the
  model is a missing `accounts.dat`.
-/

namespace BankSystem

/-! ## The C type `double` -/

/-- A value of the C type `double` (IEEE 754 binary64). `fin neg m e` is the number
`(-1)^neg * m * 2^e`; it is in canonical form when `m < 2^53`, `-1074 <= e <= 971` and
either `2^52 <= m` (normal) or `e = -1074` (subnormal or zero). Every operation below
returns canonical forms, and so do the numerals. All NaNs are one value. -/
inductive Double where
  | fin (neg : Bool) (m : Nat) (e : Int)
  | inf (neg : Bool)
  | nan
deriving DecidableEq

namespace Double

/-- The loop behind `bits`. -/
def bitsAux : Nat → Nat → Nat
  | 0, _ => 0
  | fuel + 1, n => if n = 0 then 0 else bitsAux fuel (n / 2) + 1

/-- The number of binary digits of `n`. -/
def bits (n : Nat) : Nat := bitsAux n n

/-- The double nearest to `(-1)^neg * m * 2^e`, ties to even; overflow gives infinity. -/
def round (neg : Bool) (m : Nat) (e : Int) : Double :=
  if m = 0 then fin neg 0 (-1074)
  else
    let e1 : Int := max (e + (bits m : Int) - 53) (-1074)
    if e1 ≤ e then
      if e1 > 971 then inf neg else fin neg (m * 2 ^ (e - e1).toNat) e1
    else
      let k : Nat := (e1 - e).toNat
      let q : Nat := m / 2 ^ k
      let r : Nat := m % 2 ^ k
      let half : Nat := 2 ^ (k - 1)
      let q1 : Nat := if r > half ∨ (r = half ∧ q % 2 = 1) then q + 1 else q
      if q1 = 2 ^ 53 then (if e1 + 1 > 971 then inf neg else fin neg (2 ^ 52) (e1 + 1))
      else if e1 > 971 then inf neg else fin neg q1 e1

/-- The integer `(-1)^n * m * 2^k`. -/
def sval (n : Bool) (m : Nat) (k : Nat) : Int :=
  if n then -((m * 2 ^ k : Nat) : Int) else ((m * 2 ^ k : Nat) : Int)

/-- Unary minus. -/
def neg : Double → Double
  | fin n m e => fin (!n) m e
  | inf n => inf (!n)
  | nan => nan

/-- The C operator `+` on doubles. -/
def add : Double → Double → Double
  | nan, _ => nan
  | _, nan => nan
  | inf a, inf b => if a = b then inf a else nan
  | inf a, fin _ _ _ => inf a
  | fin _ _ _, inf b => inf b
  | fin n1 m1 e1, fin n2 m2 e2 =>
    let e : Int := min e1 e2
    let s : Int := sval n1 m1 (e1 - e).toNat + sval n2 m2 (e2 - e).toNat
    if s = 0 then fin (n1 && n2) 0 (-1074) else round (decide (s < 0)) s.natAbs e

/-- The C operator `-` on doubles. -/
def sub (x y : Double) : Double := add x (neg y)

/-- The C operator `*` on doubles. -/
def mul : Double → Double → Double
  | nan, _ => nan
  | _, nan => nan
  | inf a, inf b => inf (a != b)
  | inf a, fin n m _ => if m = 0 then nan else inf (a != n)
  | fin n m _, inf b => if m = 0 then nan else inf (n != b)
  | fin n1 m1 e1, fin n2 m2 e2 => round (n1 != n2) (m1 * m2) (e1 + e2)

/-- The C operator `/` on doubles. The quotient of the mantissas is taken with 128
extra binary digits and a sticky last digit, which rounds like the exact quotient. -/
def div : Double → Double → Double
  | nan, _ => nan
  | _, nan => nan
  | inf _, inf _ => nan
  | inf a, fin n _ _ => inf (a != n)
  | fin n _ _, inf b => fin (n != b) 0 (-1074)
  | fin n1 m1 e1, fin n2 m2 e2 =>
    if m2 = 0 then (if m1 = 0 then nan else inf (n1 != n2))
    else
      let q : Nat := (m1 * 2 ^ 128) / m2
      let r : Nat := (m1 * 2 ^ 128) % m2
      round (n1 != n2) (2 * q + (if r = 0 then 0 else 1)) (e1 - e2 - 129)

/-- The C operator `<` on doubles. -/
def lt : Double → Double → Bool
  | nan, _ => false
  | _, nan => false
  | inf a, inf b => a && !b
  | inf a, fin _ _ _ => a
  | fin _ _ _, inf b => !b
  | fin n1 m1 e1, fin n2 m2 e2 =>
    let e : Int := min e1 e2
    decide (sval n1 m1 (e1 - e).toNat < sval n2 m2 (e2 - e).toNat)

/-- The C operator `<=` on doubles. -/
def le : Double → Double → Bool
  | nan, _ => false
  | _, nan => false
  | inf a, inf b => a || !b
  | inf a, fin _ _ _ => a
  | fin _ _ _, inf b => !b
  | fin n1 m1 e1, fin n2 m2 e2 =>
    let e : Int := min e1 e2
    decide (sval n1 m1 (e1 - e).toNat ≤ sval n2 m2 (e2 - e).toNat)

/-- Neither an infinity nor NaN. -/
def isFinite : Double → Bool
  | fin _ _ _ => true
  | _ => false

/-- Canonical form, as described at `Double`; the infinities and NaN count as canonical. -/
def isCanonical : Double → Bool
  | fin _ m e => decide (m < 2 ^ 53 ∧ -1074 ≤ e ∧ e ≤ 971 ∧ (2 ^ 52 ≤ m ∨ e = -1074))
  | _ => true

/-- The rational number a finite double stands for. -/
def exact : Double → Option ℚ
  | fin n m e => some ((if n then -1 else 1) * (m : ℚ) * (2 : ℚ) ^ e)
  | _ => none

instance : Add Double := ⟨add⟩
instance : Sub Double := ⟨sub⟩
instance : Mul Double := ⟨mul⟩
instance : Div Double := ⟨div⟩
instance : Neg Double := ⟨neg⟩
instance : LT Double := ⟨fun x y => lt x y = true⟩
instance : LE Double := ⟨fun x y => le x y = true⟩
instance (x y : Double) : Decidable (x < y) := inferInstanceAs (Decidable (lt x y = true))
instance (x y : Double) : Decidable (x ≤ y) := inferInstanceAs (Decidable (le x y = true))

/-- A numeral, and the conversion of an `int` constant to `double`. -/
instance (n : Nat) : OfNat Double n := ⟨round false n 0⟩

end Double

/-! ## Records and files -/

/-- The C struct `Account`. `active` is `1` for an active and `0` for a closed account. -/
structure Account where
  acc_no : Int
  name : String
  type : String
  balance : Double
  phone : String
  address : String
  active : Int
deriving DecidableEq

/-- One line of `transactions.txt`, as written by `log_transaction` (time stamp omitted). -/
structure Transaction where
  acc_no : Int
  type : String
  amount : Double
  balance_after : Double
deriving DecidableEq

/-- The two files the program works on. -/
structure Bank where
  data : Option (List Account)
  trans : List Transaction
deriving DecidableEq

/-- The messages the operations print. -/
inductive Msg where
  | accountCreated
  | accountNotFound
  | errorReadingAccount
  | accountIsClosed
  | invalidAmount
  | insufficientFunds
  | depositSuccessful
  | withdrawalSuccessful
  | failedToUpdate
  | accountModified (invalidTypeWarned : Bool)
  | failedToModify
  | accountAlreadyClosed
  | accountClosedSuccessfully
  | failedToClose
  | operationCancelled
  | sourceNotFound
  | errorReadingSource
  | sourceIsClosed
  | destinationNotFound
  | errorReadingDestination
  | destinationIsClosed
  | insufficientFundsInSource
  | transferSuccessful
  | transferFailed
  | invalidRate
  | noAccountsToUpdate
  | noAccountsFound
  | interestApplied
deriving DecidableEq

/-- The record `memset(&acc, 0, sizeof(acc))` produces; also what a hole in the file reads as. -/
def zeroAccount : Account :=
  { acc_no := 0, name := "", type := "", balance := 0, phone := "", address := "", active := 0 }

/-- The C library call `strcasecmp(a, b) == 0`: equality after mapping `A`..`Z` to lower case. -/
def strcasecmp_eq (a b : String) : Bool :=
  a.data.map Char.toLower == b.data.map Char.toLower

/-! ## Account index -/

/-- The `while (fread ...)` loop of `get_next_acc_no`, with the running maximum `max`. -/
def get_next_acc_no_loop : List Account → Int → Int
  | [], max => max
  | a :: rest, max => get_next_acc_no_loop rest (if a.acc_no > max then a.acc_no else max)

/-- Source: `get_next_acc_no`. The result is the integer `max + 1`; the C `int` holds
it whenever `max < 2147483647`. -/
def get_next_acc_no (f : Option (List Account)) : Int :=
  match f with
  | none => 1000 + 1
  | some xs => get_next_acc_no_loop xs 1000 + 1

/-- The `while (fread ...)` loop of `find_account_pos`, with the running position `pos`. -/
def find_account_pos_loop : List Account → Int → Nat → Option Nat
  | [], _, _ => none
  | a :: rest, acc_no, pos =>
    if a.acc_no = acc_no then some pos else find_account_pos_loop rest acc_no (pos + 1)

/-- Source: `find_account_pos`; `none` stands for the return value `-1`. -/
def find_account_pos (f : Option (List Account)) (acc_no : Int) : Option Nat :=
  match f with
  | none => none
  | some xs => find_account_pos_loop xs acc_no 0

/-! ## Record store -/

/-- Source: `write_account_at`; `none` stands for the return value `0` (file left as it was).
Writing past the end of the file leaves a hole of zero bytes before the record. -/
def write_account_at (f : Option (List Account)) (acc : Account) (pos : Nat) :
    Option (List Account) :=
  match f with
  | none => none
  | some xs =>
    if pos < xs.length then some (xs.set pos acc)
    else some (xs ++ List.replicate (pos - xs.length) zeroAccount ++ [acc])

/-- Source: `append_account`; mode `"ab"` creates the file when it is missing. -/
def append_account (f : Option (List Account)) (acc : Account) : Option (List Account) :=
  match f with
  | none => some [acc]
  | some xs => some (xs ++ [acc])

/-- Source: `read_account_at`; `none` stands for the return value `0`. -/
def read_account_at (f : Option (List Account)) (pos : Nat) : Option Account :=
  match f with
  | none => none
  | some xs => xs[pos]?

/-- Source: `count_accounts`. -/
def count_accounts (f : Option (List Account)) : Nat :=
  match f with
  | none => 0
  | some xs => xs.length

/-! ## Transaction log -/

/-- Source: `log_transaction`: one more line at the end of the log. -/
def log_transaction (t : List Transaction) (acc_no : Int) (type : String) (amount : Double)
    (balance_after : Double) : List Transaction :=
  t ++ [{ acc_no := acc_no, type := type, amount := amount, balance_after := balance_after }]

/-! ## Account operations -/

/-- The type prompt loop of `create_account`: the first typed line that is `Savings` or
`Current` up to letter case ends the loop; `none` when no typed line does. -/
def read_account_type : List String → Option String
  | [] => none
  | t :: rest =>
    if strcasecmp_eq t "Savings" || strcasecmp_eq t "Current" then some t
    else read_account_type rest

/-- Source: `create_account`. `types` are the lines typed at the account-type prompt.
The result is `none` when the type prompt never gets an acceptable line (the loop does
not end, nothing is written). -/
def create_account (s : Bank) (name : String) (types : List String) (balance : Double)
    (phone address : String) : Option (Bank × Msg) :=
  match read_account_type types with
  | none => none
  | some ty =>
    let acc : Account :=
      { zeroAccount with
        acc_no := get_next_acc_no s.data, name := name, type := ty, balance := balance,
        phone := phone, address := address, active := 1 }
    some ({ data := append_account s.data acc,
            trans := log_transaction s.trans acc.acc_no "CREATE" acc.balance acc.balance },
          Msg.accountCreated)

/-- Source: `deposit_amount`. -/
def deposit_amount (s : Bank) (acc_no : Int) (amt : Double) : Bank × Msg :=
  match find_account_pos s.data acc_no with
  | none => (s, Msg.accountNotFound)
  | some pos =>
    match read_account_at s.data pos with
    | none => (s, Msg.errorReadingAccount)
    | some acc =>
      if acc.active = 0 then (s, Msg.accountIsClosed)
      else if amt ≤ 0 then (s, Msg.invalidAmount)
      else
        let acc1 : Account := { acc with balance := acc.balance + amt }
        match write_account_at s.data acc1 pos with
        | some d =>
          ({ data := some d,
             trans := log_transaction s.trans acc1.acc_no "DEPOSIT" amt acc1.balance },
           Msg.depositSuccessful)
        | none => (s, Msg.failedToUpdate)

/-- Source: `withdraw_amount`. -/
def withdraw_amount (s : Bank) (acc_no : Int) (amt : Double) : Bank × Msg :=
  match find_account_pos s.data acc_no with
  | none => (s, Msg.accountNotFound)
  | some pos =>
    match read_account_at s.data pos with
    | none => (s, Msg.errorReadingAccount)
    | some acc =>
      if acc.active = 0 then (s, Msg.accountIsClosed)
      else if amt ≤ 0 then (s, Msg.invalidAmount)
      else if strcasecmp_eq acc.type "Savings" ∧ acc.balance - amt < 0 then
        (s, Msg.insufficientFunds)
      else
        let acc1 : Account := { acc with balance := acc.balance - amt }
        match write_account_at s.data acc1 pos with
        | some d =>
          ({ data := some d,
             trans := log_transaction s.trans acc1.acc_no "WITHDRAW" amt acc1.balance },
           Msg.withdrawalSuccessful)
        | none => (s, Msg.failedToUpdate)

/-- Source: `modify_account`. An empty line keeps the current value of a field. -/
def modify_account (s : Bank) (acc_no : Int) (phone address type : String) : Bank × Msg :=
  match find_account_pos s.data acc_no with
  | none => (s, Msg.accountNotFound)
  | some pos =>
    match read_account_at s.data pos with
    | none => (s, Msg.errorReadingAccount)
    | some acc =>
      if acc.active = 0 then (s, Msg.accountIsClosed)
      else
        let acc1 : Account := if phone.length > 0 then { acc with phone := phone } else acc
        let acc2 : Account :=
          if address.length > 0 then { acc1 with address := address } else acc1
        let typeOk : Bool := strcasecmp_eq type "Savings" || strcasecmp_eq type "Current"
        let acc3 : Account :=
          if type.length > 0 then (if typeOk then { acc2 with type := type } else acc2)
          else acc2
        let warned : Bool := decide (type.length > 0) && !typeOk
        match write_account_at s.data acc3 pos with
        | some d => ({ s with data := some d }, Msg.accountModified warned)
        | none => (s, Msg.failedToModify)

/-- Source: `close_account`. `c` is the character typed at the confirmation prompt. -/
def close_account (s : Bank) (acc_no : Int) (c : Char) : Bank × Msg :=
  match find_account_pos s.data acc_no with
  | none => (s, Msg.accountNotFound)
  | some pos =>
    match read_account_at s.data pos with
    | none => (s, Msg.errorReadingAccount)
    | some acc =>
      if acc.active = 0 then (s, Msg.accountAlreadyClosed)
      else if c = 'y' ∨ c = 'Y' then
        let acc1 : Account := { acc with active := 0 }
        match write_account_at s.data acc1 pos with
        | some d =>
          ({ data := some d,
             trans := log_transaction s.trans acc1.acc_no "CLOSE" 0 acc1.balance },
           Msg.accountClosedSuccessfully)
        | none => (s, Msg.failedToClose)
      else (s, Msg.operationCancelled)

/-! ## Multi-account operations -/

/-- Source: `transfer_amount`. The two records are read into separate copies, both copies
are changed, then the source copy is written and after it the destination copy. -/
def transfer_amount (s : Bank) (src dst : Int) (amt : Double) : Bank × Msg :=
  match find_account_pos s.data src with
  | none => (s, Msg.sourceNotFound)
  | some pos_from =>
    match read_account_at s.data pos_from with
    | none => (s, Msg.errorReadingSource)
    | some a_from =>
      if a_from.active = 0 then (s, Msg.sourceIsClosed)
      else
        match find_account_pos s.data dst with
        | none => (s, Msg.destinationNotFound)
        | some pos_to =>
          match read_account_at s.data pos_to with
          | none => (s, Msg.errorReadingDestination)
          | some a_to =>
            if a_to.active = 0 then (s, Msg.destinationIsClosed)
            else if amt ≤ 0 then (s, Msg.invalidAmount)
            else if strcasecmp_eq a_from.type "Savings" ∧ a_from.balance - amt < 0 then
              (s, Msg.insufficientFundsInSource)
            else
              let a_from1 : Account := { a_from with balance := a_from.balance - amt }
              let a_to1 : Account := { a_to with balance := a_to.balance + amt }
              match write_account_at s.data a_from1 pos_from with
              | none => (s, Msg.transferFailed)
              | some d1 =>
                match write_account_at (some d1) a_to1 pos_to with
                | none => ({ s with data := some d1 }, Msg.transferFailed)
                | some d2 =>
                  ({ data := some d2,
                     trans :=
                       log_transaction
                         (log_transaction s.trans a_from1.acc_no "TRANSFER_OUT" amt
                           a_from1.balance)
                         a_to1.acc_no "TRANSFER_IN" amt a_to1.balance },
                   Msg.transferSuccessful)

/-- The `for` loop of `apply_interest` over the records read into `arr`: returns the
array after the loop and the log after the loop. -/
def apply_interest_loop (rate : Double) : List Account → List Transaction →
    List Account × List Transaction
  | [], t => ([], t)
  | a :: rest, t =>
    if a.active ≠ 0 ∧ strcasecmp_eq a.type "Savings" then
      let interest : Double := a.balance * (rate / 100) / 12
      let a1 : Account := { a with balance := a.balance + interest }
      let r := apply_interest_loop rate rest
        (log_transaction t a1.acc_no "INTEREST" interest a1.balance)
      (a1 :: r.1, r.2)
    else
      let r := apply_interest_loop rate rest t
      (a :: r.1, r.2)

/-- Source: `apply_interest`. -/
def apply_interest (s : Bank) (rate : Double) : Bank × Msg :=
  if rate ≤ 0 then (s, Msg.invalidRate)
  else if count_accounts s.data = 0 then (s, Msg.noAccountsToUpdate)
  else
    match s.data with
    | none => (s, Msg.noAccountsFound)
    | some arr =>
      let r := apply_interest_loop rate arr s.trans
      ({ data := some r.1, trans := r.2 }, Msg.interestApplied)

/-! ## Sessions -/

/-- One request to the core, with the values typed at its prompts. -/
inductive Op where
  | create (name : String) (types : List String) (balance : Double) (phone address : String)
  | deposit (acc_no : Int) (amt : Double)
  | withdraw (acc_no : Int) (amt : Double)
  | modify (acc_no : Int) (phone address type : String)
  | close (acc_no : Int) (c : Char)
  | transfer (src dst : Int) (amt : Double)
  | interest (rate : Double)

/-- The state after one request; `none` when `create_account` never leaves its prompt loop. -/
def step (s : Bank) : Op → Option Bank
  | Op.create name types balance phone address =>
    (create_account s name types balance phone address).map Prod.fst
  | Op.deposit acc_no amt => some (deposit_amount s acc_no amt).1
  | Op.withdraw acc_no amt => some (withdraw_amount s acc_no amt).1
  | Op.modify acc_no phone address type => some (modify_account s acc_no phone address type).1
  | Op.close acc_no c => some (close_account s acc_no c).1
  | Op.transfer src dst amt => some (transfer_amount s src dst amt).1
  | Op.interest rate => some (apply_interest s rate).1

/-- The state before the first run: no data file, no log. -/
def emptyBank : Bank := { data := none, trans := [] }

/-- States the program can be in after a sequence of requests, starting with no files
or with an empty data file. -/
inductive Reachable : Bank → Prop where
  | init : Reachable emptyBank
  | initEmptyFile : Reachable { data := some [], trans := [] }
  | step (s s1 : Bank) (op : Op) : Reachable s → step s op = some s1 → Reachable s1

/-! ## Measurements and sample states used in the statements below -/

/-- The records `apply_interest` credits: active and of type Savings up to letter case. -/
def isActiveSavings (a : Account) : Bool :=
  decide (a.active ≠ 0) && strcasecmp_eq a.type "Savings"

/-- An active Savings account, number 1001, balance 100. -/
def savings1001 : Account :=
  { acc_no := 1001, name := "Asha", type := "Savings", balance := 100, phone := "555",
    address := "Pune", active := 1 }

/-- An active Current account, number 1002, balance 50. -/
def current1002 : Account :=
  { acc_no := 1002, name := "Ravi", type := "Current", balance := 50, phone := "556",
    address := "Delhi", active := 1 }

/-- A store holding `savings1001` and `current1002`, with an empty log. -/
def twoAccounts : Bank := { data := some [savings1001, current1002], trans := [] }

/-- A store holding only `savings1001`, with an empty log. -/
def oneAccount : Bank := { data := some [savings1001], trans := [] }

/-- What the loop of `apply_interest` does to one record. -/
def credited (rate : Double) (a : Account) : Account :=
  { a with balance := a.balance + a.balance * (rate / 100) / 12 }

/-- An active Savings account, number 1001, balance 1200. -/
def savings1200 : Account :=
  { acc_no := 1001, name := "Asha", type := "Savings", balance := 1200, phone := "555",
    address := "Pune", active := 1 }

/-- A store holding `savings1200` and `current1002`, with an empty log. -/
def interestBank : Bank := { data := some [savings1200, current1002], trans := [] }

/-- The account numbers in the store, in store order. -/
def acc_nos (f : Option (List Account)) : List Int :=
  match f with
  | none => []
  | some xs => xs.map Account.acc_no

/-- The store `g` has as many records as `f`, every position keeps its account number,
and every closed record is unchanged. -/
def Frame (f g : Option (List Account)) : Prop :=
  count_accounts g = count_accounts f ∧
  ∀ p a, read_account_at f p = some a →
    ∃ b, read_account_at g p = some b ∧ b.acc_no = a.acc_no ∧ (a.active = 0 → b = a)

/-- A sequence of requests, one after the other. -/
def run : Bank → List Op → Option Bank
  | s, [] => some s
  | s, op :: ops =>
    match step s op with
    | none => none
    | some s1 => run s1 ops

/-- Create 1001, create 1002, close 1001. -/
def createCreateClose : List Op :=
  [Op.create "Asha" ["Savings"] 100 "555" "Pune",
   Op.create "Ravi" ["Current"] 50 "556" "Delhi",
   Op.close 1001 'y']

/-- Create a Current account with balance 0, withdraw 50 from it, then change its type
to Savings. -/
def overdrawThenRetype : List Op :=
  [Op.create "Ravi" ["Current"] 0 "556" "Delhi",
   Op.withdraw 1001 50,
   Op.modify 1001 "" "" "Savings"]

/-- The state `overdrawThenRetype` leads to. -/
def retypedBank : Bank :=
  { data := some [{ acc_no := 1001, name := "Ravi", type := "Savings", balance := -50,
                    phone := "556", address := "Delhi", active := 1 }],
    trans := [{ acc_no := 1001, type := "CREATE", amount := 0, balance_after := 0 },
              { acc_no := 1001, type := "WITHDRAW", amount := 50, balance_after := -50 }] }

/-- The account `savings1001` after it has been closed. -/
def closed1001 : Account := { savings1001 with active := 0 }

/-- A store holding the closed account 1001 and the active account 1002. -/
def closedBank : Bank := { data := some [closed1001, current1002], trans := [] }

/-- The account numbers are all at least 1001 and strictly increasing in store order. -/
def GoodNumbers (f : Option (List Account)) : Prop :=
  (acc_nos f).Pairwise (fun a b => a < b) ∧ ∀ n ∈ acc_nos f, 1001 ≤ n

/-- Create 1001, then create 1002. -/
def createCreate : List Op :=
  [Op.create "Asha" ["Savings"] 100 "555" "Pune",
   Op.create "Ravi" ["Current"] 50 "556" "Delhi"]

/-- The state `createCreate` leads to. -/
def createdBank : Bank :=
  { data := some [savings1001, current1002],
    trans := [{ acc_no := 1001, type := "CREATE", amount := 100, balance_after := 100 },
              { acc_no := 1002, type := "CREATE", amount := 50, balance_after := 50 }] }

/-- The state after creating the first account with the type typed as `savings`. -/
def lowercaseBank : Bank :=
  { data := some [{ savings1001 with type := "savings" }],
    trans := [{ acc_no := 1001, type := "CREATE", amount := 100, balance_after := 100 }] }

/-! ## Display of an account and of its transactions -/

/-- The `while (fgets ...)` loop of `display_account` over the lines of the log, with the
running counter `shown`; the result is the lines printed, in the order printed. A line
is one `log_transaction` record, so the number `sscanf(line, "%d", ...)` reads at its
start is the record's `acc_no`. After printing a line the loop stops when the counter
has reached 10. -/
def display_account_loop : List Transaction → Int → Nat → List Transaction
  | [], _, _ => []
  | line :: rest, acc_no, shown =>
    if line.acc_no = acc_no then
      if shown + 1 ≥ 10 then [line]
      else line :: display_account_loop rest acc_no (shown + 1)
    else display_account_loop rest acc_no shown

/-- What `display_account` prints: a message, or the record followed by the
transaction lines shown for it (an empty list prints as the no-transactions notice). -/
inductive Display where
  | accountNotFound
  | errorReadingAccount
  | accountIsClosed
  | details (acc : Account) (recent : List Transaction)
deriving DecidableEq

/-- Source: `display_account`. It changes neither file. -/
def display_account (s : Bank) (acc_no : Int) : Display :=
  match find_account_pos s.data acc_no with
  | none => Display.accountNotFound
  | some pos =>
    match read_account_at s.data pos with
    | none => Display.errorReadingAccount
    | some acc =>
      if acc.active = 0 then Display.accountIsClosed
      else Display.details acc (display_account_loop s.trans acc_no 0)

/-- One deposit of 1 into account 1001, leaving the balance `b`. -/
def dep1001 (b : Double) : Transaction :=
  { acc_no := 1001, type := "DEPOSIT", amount := 1, balance_after := b }

/-- One deposit of 1 into account 1002, leaving the balance `b`. -/
def dep1002 (b : Double) : Transaction :=
  { acc_no := 1002, type := "DEPOSIT", amount := 1, balance_after := b }

/-- A log with twelve lines of account 1001 and two lines of account 1002 in between. -/
def busyLog : List Transaction :=
  [dep1001 101, dep1002 51, dep1001 102, dep1001 103, dep1001 104, dep1001 105,
   dep1001 106, dep1002 52, dep1001 107, dep1001 108, dep1001 109, dep1001 110,
   dep1001 111, dep1001 112]

/-- The store `twoAccounts` with the log `busyLog`. -/
def busyBank : Bank := { data := some [savings1001, current1002], trans := busyLog }

/-- An active Savings account, number 1001, balance ten thousand million million. -/
def bigSavings : Account := { savings1001 with balance := 10000000000000000 }

/-- An active Current account, number 1002, balance 0. -/
def zeroCurrent : Account := { current1002 with balance := 0 }

/-- A store holding `bigSavings` and `zeroCurrent`, with an empty log. -/
def bigBank : Bank := { data := some [bigSavings, zeroCurrent], trans := [] }

/-- An active Savings account whose balance is NaN (typed as `nan` at Create). -/
def nanSavings : Account := { savings1001 with balance := Double.nan }

/-- A store holding only `nanSavings`, with an empty log. -/
def nanBank : Bank := { data := some [nanSavings], trans := [] }

/-- An active Savings account, number 1001, balance 1000. -/
def savings1000 : Account := { savings1001 with balance := 1000 }

/-- A store holding only `savings1000`, with an empty log. -/
def thousandBank : Bank := { data := some [savings1000], trans := [] }

set_option maxRecDepth 100000
set_option exponentiation.threshold 4000

/-! ## Facts about doubles -/

theorem Double.zero_eq : (0 : Double) = Double.fin false 0 (-1074) := by decide

theorem Double.lt_def (x y : Double) : x < y ↔ Double.lt x y = true := Iff.rfl

theorem Double.le_def (x y : Double) : x ≤ y ↔ Double.le x y = true := Iff.rfl

theorem Double.sub_def (x y : Double) : x - y = Double.add x (Double.neg y) := rfl

theorem Double.sval_zero (n : Bool) (k : Nat) : Double.sval n 0 k = 0 := by
  cases n <;> simp [Double.sval]

/-- Decimal fractions are rounded: the doubles nearest to 0.1 and 0.7 add up to the
double printed as 0.7999999999999999, which is below the double nearest to 0.8. -/
theorem Double.tenth_plus_seven_tenths :
    Double.fin false 7205759403792794 (-56) + Double.fin false 6305039478318694 (-53) =
      Double.fin false 7205759403792793 (-53) ∧
    Double.fin false 7205759403792793 (-53) - Double.fin false 7205759403792794 (-53) < 0 := by
  decide

/-- A positive amount is not rejected by the test `amt <= 0`. -/
theorem Double.not_le_zero_of_pos {d : Double} (h : 0 < d) : ¬ d ≤ 0 := by
  rw [Double.lt_def, Double.zero_eq] at h
  rw [Double.le_def, Double.zero_eq]
  cases d with
  | nan => simp [Double.lt] at h
  | inf n => cases n <;> simp_all [Double.lt, Double.le]
  | fin n m e =>
    simp only [Double.lt, Double.le, decide_eq_true_eq, Double.sval_zero] at h ⊢
    rw [min_comm]
    omega

/-- Rounding never produces NaN. -/
theorem Double.round_ne_nan (n : Bool) (m : Nat) (e : Int) : Double.round n m e ≠ Double.nan := by
  unfold Double.round
  simp only
  split_ifs <;> simp

/-- A finite balance minus a positive amount is a number. -/
theorem Double.sub_ne_nan {b a : Double} (hb : b.isFinite = true) (ha : 0 < a) :
    b - a ≠ Double.nan := by
  rw [Double.lt_def, Double.zero_eq] at ha
  rw [Double.sub_def]
  cases b with
  | nan => simp [Double.isFinite] at hb
  | inf n => simp [Double.isFinite] at hb
  | fin n1 m1 e1 =>
    cases a with
    | nan => simp [Double.lt] at ha
    | inf n => simp [Double.neg, Double.add]
    | fin n2 m2 e2 =>
      simp only [Double.neg, Double.add]
      split_ifs
      · simp
      · exact Double.round_ne_nan _ _ _

/-- For a number, "not below zero" and "at least zero" are the same test. -/
theorem Double.not_lt_zero_iff {x : Double} (hx : x ≠ Double.nan) : ¬ x < 0 ↔ 0 ≤ x := by
  rw [Double.lt_def, Double.le_def, Double.zero_eq]
  cases x with
  | nan => exact absurd rfl hx
  | inf n => cases n <;> simp [Double.lt, Double.le]
  | fin n m e =>
    simp only [Double.lt, Double.le, decide_eq_true_eq, Double.sval_zero]
    rw [min_comm]
    omega

theorem Double.bitsAux_spec (fuel n : Nat) (hn : 0 < n) (hf : n ≤ fuel) :
    2 ^ (Double.bitsAux fuel n - 1) ≤ n ∧ 0 < Double.bitsAux fuel n := by
  induction fuel generalizing n with
  | zero => omega
  | succ fuel ih =>
    have hne : ¬ n = 0 := by omega
    simp only [Double.bitsAux, if_neg hne, Nat.add_sub_cancel]
    refine ⟨?_, by omega⟩
    by_cases h2 : n / 2 = 0
    · rw [h2]
      have : Double.bitsAux fuel 0 = 0 := by
        cases fuel <;> simp [Double.bitsAux]
      rw [this]
      simpa using hn
    · obtain ⟨ih1, ih2⟩ := ih (n / 2) (by omega) (by omega)
      obtain ⟨b, hb⟩ : ∃ b, Double.bitsAux fuel (n / 2) = b + 1 :=
        ⟨Double.bitsAux fuel (n / 2) - 1, by omega⟩
      rw [hb] at ih1 ⊢
      simp only [Nat.add_sub_cancel] at ih1
      rw [pow_succ]
      omega

theorem Double.bits_spec (n : Nat) (hn : 0 < n) :
    2 ^ (Double.bits n - 1) ≤ n ∧ 0 < Double.bits n :=
  Double.bitsAux_spec n n hn (le_refl n)

theorem Double.zero_le_fin (neg : Bool) (m : Nat) (e : Int) (hm : 0 < m) :
    (0 : Double) ≤ Double.fin neg m e ↔ neg = false := by
  rw [Double.le_def, Double.zero_eq]
  simp only [Double.le, decide_eq_true_eq, Double.sval_zero]
  have hp : 0 < m * 2 ^ (e - min (-1074) e).toNat := Nat.mul_pos hm (pow_pos (by decide) _)
  cases neg
  · simp [Double.sval]
  · simp only [Double.sval, if_true]
    constructor
    · intro h; omega
    · intro h; exact absurd h (by decide)

theorem Double.zero_le_inf (neg : Bool) : (0 : Double) ≤ Double.inf neg ↔ neg = false := by
  rw [Double.le_def, Double.zero_eq]
  cases neg <;> simp [Double.le]

/-- Rounding a non-zero number whose exponent is not below the subnormal range keeps
its sign: the result is not a zero. -/
theorem Double.zero_le_round (neg : Bool) (m : Nat) (e : Int) (hm : 0 < m)
    (he : -1074 ≤ e) : (0 : Double) ≤ Double.round neg m e ↔ neg = false := by
  have hm0 : ¬ m = 0 := by omega
  obtain ⟨hb1, hb2⟩ := Double.bits_spec m hm
  unfold Double.round
  simp only [if_neg hm0]
  by_cases h1 : max (e + (Double.bits m : Int) - 53) (-1074) ≤ e
  · simp only [if_pos h1]
    split_ifs
    · exact Double.zero_le_inf neg
    · exact Double.zero_le_fin neg _ _ (Nat.mul_pos hm (pow_pos (by decide) _))
  · simp only [if_neg h1]
    have hmax : max (e + (Double.bits m : Int) - 53) (-1074) = e + (Double.bits m : Int) - 53 := by
      apply max_eq_left
      by_contra hc
      push_neg at hc
      rw [max_eq_right (le_of_lt hc)] at h1
      exact h1 he
    rw [hmax] at h1 ⊢
    have hk : (e + (Double.bits m : Int) - 53 - e).toNat = Double.bits m - 53 := by omega
    rw [hk]
    have hq : 0 < m / 2 ^ (Double.bits m - 53) := by
      apply Nat.div_pos _ (pow_pos (by decide) _)
      calc 2 ^ (Double.bits m - 53) ≤ 2 ^ (Double.bits m - 1) :=
            Nat.pow_le_pow_right (by decide) (by omega)
        _ ≤ m := hb1
    split_ifs <;> first
      | exact Double.zero_le_inf neg
      | exact Double.zero_le_fin neg _ _ hq
      | exact Double.zero_le_fin neg _ _ (by omega)


theorem Double.sval_not (n : Bool) (m k : Nat) :
    Double.sval (!n) m k = - Double.sval n m k := by
  cases n <;> simp [Double.sval]

theorem Double.sval_cast (n : Bool) (m : Nat) (e1 e : Int) (h : e ≤ e1) :
    ((Double.sval n m (e1 - e).toNat : Int) : ℚ) * (2 : ℚ) ^ e =
      (if n then -1 else 1) * (m : ℚ) * (2 : ℚ) ^ e1 := by
  have hk : (((e1 - e).toNat : Nat) : Int) = e1 - e := Int.toNat_of_nonneg (by omega)
  have hpow : ((2 : ℚ) ^ (e1 - e).toNat) * (2 : ℚ) ^ e = (2 : ℚ) ^ e1 := by
    rw [← zpow_natCast, hk, ← zpow_add₀ (by norm_num : (2 : ℚ) ≠ 0)]
    congr 1
    omega
  cases n
  · simp only [Double.sval, Bool.false_eq_true, if_false, one_mul]
    push_cast
    rw [mul_assoc, hpow]
  · simp only [Double.sval, if_true]
    push_cast
    rw [neg_mul, mul_assoc, hpow]
    ring

/-- For two finite doubles with exponents in range, the double difference is at least zero
exactly when the exact difference is: rounding a difference never changes its sign. -/
theorem Double.zero_le_sub_iff (n1 : Bool) (m1 : Nat) (e1 : Int) (n2 : Bool) (m2 : Nat)
    (e2 : Int) (h1 : -1074 ≤ e1) (h2 : -1074 ≤ e2) :
    (0 : Double) ≤ Double.fin n1 m1 e1 - Double.fin n2 m2 e2 ↔
      (0 : ℚ) ≤ (if n1 then -1 else 1) * (m1 : ℚ) * (2 : ℚ) ^ e1 -
        (if n2 then -1 else 1) * (m2 : ℚ) * (2 : ℚ) ^ e2 := by
  have hle1 : min e1 e2 ≤ e1 := min_le_left _ _
  have hle2 : min e1 e2 ≤ e2 := min_le_right _ _
  have hmin : -1074 ≤ min e1 e2 := le_min h1 h2
  have hbridge :
      ((Double.sval n1 m1 (e1 - min e1 e2).toNat +
          Double.sval (!n2) m2 (e2 - min e1 e2).toNat : Int) : ℚ) * (2 : ℚ) ^ (min e1 e2) =
        (if n1 then -1 else 1) * (m1 : ℚ) * (2 : ℚ) ^ e1 -
          (if n2 then -1 else 1) * (m2 : ℚ) * (2 : ℚ) ^ e2 := by
    rw [Double.sval_not, Int.cast_add, Int.cast_neg, add_mul, neg_mul,
      Double.sval_cast n1 m1 e1 _ hle1, Double.sval_cast n2 m2 e2 _ hle2]
    ring
  have hpos : (0 : ℚ) < (2 : ℚ) ^ (min e1 e2) := zpow_pos (by norm_num) _
  rw [← hbridge, mul_nonneg_iff_of_pos_right hpos, Int.cast_nonneg]
  rw [Double.sub_def]
  simp only [Double.neg, Double.add]
  by_cases hs : Double.sval n1 m1 (e1 - min e1 e2).toNat +
      Double.sval (!n2) m2 (e2 - min e1 e2).toNat = 0
  · rw [if_pos hs, hs]
    rw [Double.le_def, Double.zero_eq]
    simp [Double.le, Double.sval_zero]
  · rw [if_neg hs]
    rw [Double.zero_le_round _ _ _ (Int.natAbs_pos.mpr hs) hmin]
    simp only [decide_eq_false_iff_not, not_lt]

/-- The same for any two finite doubles in canonical form, in terms of their exact
values. -/
theorem Double.zero_le_sub_exact {x y : Double} {qx qy : ℚ}
    (hx : x.exact = some qx) (hy : y.exact = some qy)
    (hcx : x.isCanonical = true) (hcy : y.isCanonical = true) :
    (0 : Double) ≤ x - y ↔ (0 : ℚ) ≤ qx - qy := by
  cases x with
  | nan => simp [Double.exact] at hx
  | inf n => simp [Double.exact] at hx
  | fin n1 m1 e1 =>
    cases y with
    | nan => simp [Double.exact] at hy
    | inf n => simp [Double.exact] at hy
    | fin n2 m2 e2 =>
      simp only [Double.exact, Option.some.injEq] at hx hy
      simp only [Double.isCanonical, decide_eq_true_eq] at hcx hcy
      rw [← hx, ← hy]
      exact Double.zero_le_sub_iff n1 m1 e1 n2 m2 e2 hcx.2.1 hcy.2.1


/-! ## Facts about the record store and the account index -/

theorem read_account_at_eq_some {f : Option (List Account)} {pos : Nat} {a : Account}
    (h : read_account_at f pos = some a) :
    ∃ xs, f = some xs ∧ xs[pos]? = some a ∧ pos < xs.length := by
  cases f with
  | none => simp [read_account_at] at h
  | some xs =>
    refine ⟨xs, rfl, h, ?_⟩
    by_contra hlt
    have : xs[pos]? = none := List.getElem?_eq_none (Nat.le_of_not_lt hlt)
    simp [read_account_at, this] at h

theorem write_account_at_of_lt (xs : List Account) (b : Account) {pos : Nat}
    (h : pos < xs.length) : write_account_at (some xs) b pos = some (xs.set pos b) := by
  simp [write_account_at, h]

theorem find_account_pos_loop_some {xs : List Account} {n : Int} {k p : Nat}
    (h : find_account_pos_loop xs n k = some p) :
    ∃ i a, p = k + i ∧ xs[i]? = some a ∧ a.acc_no = n ∧
      ∀ j b, j < i → xs[j]? = some b → b.acc_no ≠ n := by
  induction xs generalizing k with
  | nil => simp [find_account_pos_loop] at h
  | cons x rest ih =>
    unfold find_account_pos_loop at h
    by_cases hx : x.acc_no = n
    · rw [if_pos hx] at h
      refine ⟨0, x, ?_, by simp, hx, ?_⟩
      · simpa using (Option.some.inj h).symm
      · intro j b hj; omega
    · rw [if_neg hx] at h
      obtain ⟨i, a, hp, hget, ha, hfirst⟩ := ih h
      refine ⟨i + 1, a, by omega, by simpa using hget, ha, ?_⟩
      intro j b hj hb
      cases j with
      | zero => simp at hb; subst hb; exact hx
      | succ j => exact hfirst j b (by omega) (by simpa using hb)

theorem find_account_pos_loop_none {xs : List Account} {n : Int} {k : Nat} :
    find_account_pos_loop xs n k = none ↔ ∀ a ∈ xs, a.acc_no ≠ n := by
  induction xs generalizing k with
  | nil => simp [find_account_pos_loop]
  | cons x rest ih =>
    unfold find_account_pos_loop
    by_cases hx : x.acc_no = n
    · simp [hx]
    · simp [hx, ih]

/-- What a successful `find_account_pos` says: the store exists, the position is inside it,
the record there carries the number, and no earlier record does. -/
theorem find_account_pos_some {f : Option (List Account)} {n : Int} {p : Nat}
    (h : find_account_pos f n = some p) :
    ∃ xs a, f = some xs ∧ p < xs.length ∧ xs[p]? = some a ∧ a.acc_no = n ∧
      ∀ j b, j < p → xs[j]? = some b → b.acc_no ≠ n := by
  cases f with
  | none => simp [find_account_pos] at h
  | some xs =>
    obtain ⟨i, a, hp, hget, ha, hfirst⟩ := find_account_pos_loop_some h
    have hi : p = i := by omega
    subst hi
    refine ⟨xs, a, rfl, ?_, hget, ha, hfirst⟩
    by_contra hlt
    have : xs[p]? = none := List.getElem?_eq_none (Nat.le_of_not_lt hlt)
    rw [this] at hget
    exact Option.noConfusion hget

theorem read_account_at_unique {f : Option (List Account)} {pos : Nat} {a b : Account}
    (h1 : read_account_at f pos = some a) (h2 : read_account_at f pos = some b) : a = b := by
  rw [h1] at h2
  exact Option.some.inj h2

/-! ## C1: deposit -/

/-- C1 fails as stated, because the balance is a `double`. Depositing 1 into account
1001 of `bigBank`, whose balance is 10000000000000000, succeeds and logs a `DEPOSIT`
entry, but the stored balance and the logged balance are still 10000000000000000: the
sum 10000000000000001 is not a double and is rounded back. -/
theorem deposit_sum_is_rounded :
    (0 : Double) < 1 ∧
    deposit_amount bigBank 1001 1 =
      ({ data := some [bigSavings, zeroCurrent],
         trans := [{ acc_no := 1001, type := "DEPOSIT", amount := 1,
                     balance_after := 10000000000000000 }] },
       Msg.depositSuccessful) ∧
    Double.exact bigSavings.balance = some 10000000000000000 ∧
    Double.exact 1 = some 1 ∧
    (10000000000000000 : ℚ) ≠ 10000000000000000 + 1 := by
  have hbig : (10000000000000000 : Double) = Double.fin false 5000000000000000 1 := by
    decide
  have hone : (1 : Double) = Double.fin false 4503599627370496 (-52) := by decide
  refine ⟨by decide, by decide, ?_, ?_, by norm_num⟩
  · simp only [bigSavings, hbig, Double.exact]
    norm_num
  · simp only [hone, Double.exact]
    norm_num

/-- C1, amended. Deposit postcondition in double arithmetic: when the account number
resolves to the record `acc` at position `pos`, that record is active and `d > 0`, then
`deposit_amount` reports success, the record at `pos` afterwards is `acc` with its
balance replaced by the double sum `acc.balance + d` (every other field as before),
every other position reads as before, the number of records is the same, and the log is
the old log followed by exactly one `DEPOSIT` entry carrying `d` and the new balance. -/
theorem deposit_postcondition (s : Bank) (acc_no : Int) (d : Double) (pos : Nat) (acc : Account)
    (hpos : find_account_pos s.data acc_no = some pos)
    (hacc : read_account_at s.data pos = some acc)
    (hactive : acc.active ≠ 0) (hd : 0 < d) :
    (deposit_amount s acc_no d).2 = Msg.depositSuccessful ∧
    read_account_at (deposit_amount s acc_no d).1.data pos =
      some { acc with balance := acc.balance + d } ∧
    (∀ i, i ≠ pos →
      read_account_at (deposit_amount s acc_no d).1.data i = read_account_at s.data i) ∧
    count_accounts (deposit_amount s acc_no d).1.data = count_accounts s.data ∧
    (deposit_amount s acc_no d).1.trans =
      s.trans ++ [{ acc_no := acc_no, type := "DEPOSIT", amount := d,
                    balance_after := acc.balance + d }] := by
  obtain ⟨xs, a, hdata, hlt, hget, hno, -⟩ := find_account_pos_some hpos
  have ha : a = acc := by
    apply read_account_at_unique _ hacc
    rw [hdata]; exact hget
  subst ha
  have hnd : ¬ d ≤ 0 := Double.not_le_zero_of_pos hd
  have hw := write_account_at_of_lt xs { a with balance := a.balance + d } hlt
  rw [← hdata] at hw
  have hres : deposit_amount s acc_no d =
      ({ data := some (xs.set pos { a with balance := a.balance + d }),
         trans := log_transaction s.trans a.acc_no "DEPOSIT" d (a.balance + d) },
       Msg.depositSuccessful) := by
    simp only [deposit_amount, hpos, hacc, if_neg hactive, if_neg hnd, hw]
  rw [hres]
  refine ⟨rfl, ?_, ?_, ?_, ?_⟩
  · simp [read_account_at, hlt]
  · intro i hi
    simp [read_account_at, hdata, List.getElem?_set_ne (Ne.symm hi)]
  · simp [count_accounts, hdata]
  · simp [log_transaction, hno]

/-- C1, amended, at a concrete input: depositing 25 into account 1001 (balance 100) of
`twoAccounts` succeeds, leaves account 1002 as it was and logs one `DEPOSIT` entry. -/
theorem deposit_postcondition_witness :
    (deposit_amount twoAccounts 1001 25).2 = Msg.depositSuccessful ∧
    read_account_at (deposit_amount twoAccounts 1001 25).1.data 0 =
      some { savings1001 with balance := savings1001.balance + 25 } ∧
    read_account_at (deposit_amount twoAccounts 1001 25).1.data 1 = some current1002 ∧
    (deposit_amount twoAccounts 1001 25).1.trans =
      [{ acc_no := 1001, type := "DEPOSIT", amount := 25,
         balance_after := savings1001.balance + 25 }] :=
  have h := deposit_postcondition twoAccounts 1001 25 0 savings1001
    (by decide) (by decide) (by decide) (by decide)
  ⟨h.1, h.2.1, (h.2.2.1 1 (by decide)).trans (by decide), h.2.2.2.2⟩

/-! ## C2: withdrawal from a Savings account -/

/-- C2 fails as stated, because the balance is a `double`. (1) In `nanBank` the
active Savings account 1001 has the balance NaN; withdrawing 5000 succeeds and is
logged although `balance - 5000 >= 0` does not hold: the guard `balance - amt < 0` is
false for NaN. (2) Withdrawing 1 from the balance 10000000000000000 of `bigBank`
succeeds, but the new balance is still 10000000000000000, not the old balance minus
1. -/
theorem withdraw_floor_not_exact :
    withdraw_amount nanBank 1001 5000 =
      ({ data := some [nanSavings],
         trans := [{ acc_no := 1001, type := "WITHDRAW", amount := 5000,
                     balance_after := Double.nan }] },
       Msg.withdrawalSuccessful) ∧
    ¬ (0 ≤ nanSavings.balance - 5000) ∧
    withdraw_amount bigBank 1001 1 =
      ({ data := some [bigSavings, zeroCurrent],
         trans := [{ acc_no := 1001, type := "WITHDRAW", amount := 1,
                     balance_after := 10000000000000000 }] },
       Msg.withdrawalSuccessful) ∧
    Double.exact bigSavings.balance = some 10000000000000000 ∧
    Double.exact 1 = some 1 ∧
    (10000000000000000 : ℚ) ≠ 10000000000000000 - 1 := by
  have hbig : (10000000000000000 : Double) = Double.fin false 5000000000000000 1 := by
    decide
  have hone : (1 : Double) = Double.fin false 4503599627370496 (-52) := by decide
  refine ⟨by decide, by decide, by decide, ?_, ?_, by norm_num⟩
  · simp only [bigSavings, hbig, Double.exact]
    norm_num
  · simp only [hone, Double.exact]
    norm_num

/-- C2, amended. Savings withdrawal floor in double arithmetic: when the account number
resolves to an active record `acc` whose type is Savings up to letter case and whose
balance is finite, and `amt > 0`, then `withdraw_amount` succeeds exactly when the
double difference `acc.balance - amt` is `>= 0`; in that case the record afterwards is
`acc` with that difference as balance, every other position reads as before and one
`WITHDRAW` entry with `amt` and the new balance is appended to the log; otherwise the
whole state (store and log) is returned unchanged together with the insufficient-funds
message. When the amount is finite too (both in canonical form, with exact values `qb`
and `qa`), success is exactly `qb - qa >= 0`: only the new balance is rounded, not the
decision. -/
theorem withdraw_savings_floor (s : Bank) (acc_no : Int) (amt : Double) (pos : Nat)
    (acc : Account)
    (hpos : find_account_pos s.data acc_no = some pos)
    (hacc : read_account_at s.data pos = some acc)
    (hactive : acc.active ≠ 0)
    (hsav : strcasecmp_eq acc.type "Savings" = true)
    (hfin : acc.balance.isFinite = true) (hamt : 0 < amt) :
    ((withdraw_amount s acc_no amt).2 = Msg.withdrawalSuccessful ↔ 0 ≤ acc.balance - amt) ∧
    (0 ≤ acc.balance - amt →
      read_account_at (withdraw_amount s acc_no amt).1.data pos =
        some { acc with balance := acc.balance - amt } ∧
      (∀ i, i ≠ pos →
        read_account_at (withdraw_amount s acc_no amt).1.data i = read_account_at s.data i) ∧
      (withdraw_amount s acc_no amt).1.trans =
        s.trans ++ [{ acc_no := acc_no, type := "WITHDRAW", amount := amt,
                      balance_after := acc.balance - amt }]) ∧
    (¬ 0 ≤ acc.balance - amt →
      withdraw_amount s acc_no amt = (s, Msg.insufficientFunds)) ∧
    (∀ qb qa : ℚ, Double.exact acc.balance = some qb → Double.exact amt = some qa →
      acc.balance.isCanonical = true → amt.isCanonical = true →
      ((withdraw_amount s acc_no amt).2 = Msg.withdrawalSuccessful ↔ 0 ≤ qb - qa)) := by
  obtain ⟨xs, a, hdata, hlt, hget, hno, -⟩ := find_account_pos_some hpos
  have ha : a = acc := by
    apply read_account_at_unique _ hacc
    rw [hdata]; exact hget
  subst ha
  have hnd : ¬ amt ≤ 0 := Double.not_le_zero_of_pos hamt
  have hiff := Double.not_lt_zero_iff (Double.sub_ne_nan hfin hamt)
  have hw := write_account_at_of_lt xs { a with balance := a.balance - amt } hlt
  rw [← hdata] at hw
  by_cases hfloor : 0 ≤ a.balance - amt
  · have hcond : ¬ (strcasecmp_eq a.type "Savings" = true ∧ a.balance - amt < 0) :=
      fun h => absurd h.2 (hiff.mpr hfloor)
    have hres : withdraw_amount s acc_no amt =
        ({ data := some (xs.set pos { a with balance := a.balance - amt }),
           trans := log_transaction s.trans a.acc_no "WITHDRAW" amt (a.balance - amt) },
         Msg.withdrawalSuccessful) := by
      simp only [withdraw_amount, hpos, hacc, if_neg hactive, if_neg hnd, if_neg hcond, hw]
    rw [hres]
    refine ⟨⟨fun _ => hfloor, fun _ => rfl⟩, fun _ => ⟨?_, ?_, ?_⟩, fun h => absurd hfloor h,
      fun qb qa hb ha hcb hca =>
        ⟨fun _ => (Double.zero_le_sub_exact hb ha hcb hca).mp hfloor, fun _ => rfl⟩⟩
    · simp [read_account_at, hlt]
    · intro i hi
      simp [read_account_at, hdata, List.getElem?_set_ne (Ne.symm hi)]
    · simp [log_transaction, hno]
  · have hcond : strcasecmp_eq a.type "Savings" = true ∧ a.balance - amt < 0 :=
      ⟨hsav, by_contra (fun h => hfloor (hiff.mp h))⟩
    have hres : withdraw_amount s acc_no amt = (s, Msg.insufficientFunds) := by
      simp only [withdraw_amount, hpos, hacc, if_neg hactive, if_neg hnd, if_pos hcond]
    rw [hres]
    refine ⟨⟨fun h => ?_, fun h => absurd h hfloor⟩, fun h => absurd h hfloor, fun _ => rfl,
      fun qb qa hb ha hcb hca =>
        ⟨fun h => ?_, fun h => absurd ((Double.zero_le_sub_exact hb ha hcb hca).mpr h) hfloor⟩⟩
    · simp at h
    · simp at h

/-- C2, amended, at a concrete input: account 1001 of `twoAccounts` is an active Savings account
with balance 100; withdrawing 130 is refused and changes nothing. -/
theorem withdraw_savings_floor_witness :
    withdraw_amount twoAccounts 1001 130 = (twoAccounts, Msg.insufficientFunds) :=
  (withdraw_savings_floor twoAccounts 1001 130 0 savings1001
    (by decide) (by decide) (by decide) (by decide) (by decide) (by decide)).2.2.1
    (by decide)

/-! ## C3: transfer between two distinct accounts -/

/-- C4 (evaluation of the code at the failing input). `transfer_amount` has no check
that source and destination differ: transferring 30 from account 1001 (balance 100) to
itself is reported as successful, leaves the balance at 130 and logs
`TRANSFER_OUT(30,70)` followed by `TRANSFER_IN(30,130)`. -/
theorem transfer_to_self_credits :
    transfer_amount oneAccount 1001 1001 30 =
      ({ data := some [{ savings1001 with balance := 130 }],
         trans := [{ acc_no := 1001, type := "TRANSFER_OUT", amount := 30, balance_after := 70 },
                   { acc_no := 1001, type := "TRANSFER_IN", amount := 30, balance_after := 130 }] },
       Msg.transferSuccessful) := by
  decide

/-! ## C5: monthly interest -/

/-- The loop of `apply_interest` maps the store record by record and appends one
`INTEREST` line per credited record, in store order. -/
theorem apply_interest_loop_eq (rate : Double) (xs : List Account) (t : List Transaction) :
    apply_interest_loop rate xs t =
      (xs.map (fun a => if isActiveSavings a = true then credited rate a else a),
       t ++ (xs.filter (fun a => isActiveSavings a)).map (fun a =>
         { acc_no := a.acc_no, type := "INTEREST",
           amount := a.balance * (rate / 100) / 12,
           balance_after := a.balance + a.balance * (rate / 100) / 12 })) := by
  induction xs generalizing t with
  | nil => simp [apply_interest_loop]
  | cons x rest ih =>
    unfold apply_interest_loop
    by_cases hx : x.active ≠ 0 ∧ strcasecmp_eq x.type "Savings" = true
    · have hs : isActiveSavings x = true := by simp [isActiveSavings, hx.1, hx.2]
      rw [if_pos hx]
      simp [ih, hs, credited, log_transaction]
    · have hs : isActiveSavings x = false := by
        simp only [isActiveSavings, Bool.and_eq_false_iff, decide_eq_false_iff_not]
        by_contra hc
        push_neg at hc
        exact hx ⟨by simpa using hc.1, by simpa using hc.2⟩
      rw [if_neg hx]
      simp [ih, hs]

/-- C5 fails as stated, because the balance is a `double`. Applying 7 percent to the
active Savings account of `thousandBank` (balance 1000) stores the double
`8847403564837547 * 2^-43` (printed as 1005.8333333333334), which is not the number
`1000 + 1000 * (7 / 100) / 12`. -/
theorem apply_interest_is_rounded :
    read_account_at (apply_interest thousandBank 7).1.data 0 =
      some { savings1000 with balance := Double.fin false 8847403564837547 (-43) } ∧
    Double.exact savings1000.balance = some 1000 ∧
    Double.exact 7 = some 7 ∧
    Double.exact (Double.fin false 8847403564837547 (-43)) =
      some (8847403564837547 / 8796093022208) ∧
    (8847403564837547 / 8796093022208 : ℚ) ≠ 1000 + 1000 * (7 / 100) / 12 := by
  have h1000 : (1000 : Double) = Double.fin false 8796093022208000 (-43) := by decide
  have h7 : (7 : Double) = Double.fin false 7881299347898368 (-50) := by decide
  refine ⟨by decide, ?_, ?_, ?_, by norm_num⟩
  · simp only [savings1000, h1000, Double.exact]
    norm_num
  · simp only [h7, Double.exact]
    norm_num
  · simp only [Double.exact]
    norm_num

/-- C5, amended. ApplyInterest postcondition in double arithmetic: on a non-empty store
`xs` and with `rate > 0`, `apply_interest` reports success; the store afterwards has
the same number of records; at every position, a record that was an active Savings
account is the old record with the double value `old + old * (rate / 100) / 12` as
balance (all other fields as before) and any other record (not Savings, or closed) is
identical to the old one; and the log is the old log followed by exactly one
`INTEREST(interest, new balance)` entry per credited record, in store order. -/
theorem apply_interest_postcondition (s : Bank) (xs : List Account) (rate : Double)
    (hdata : s.data = some xs) (hne : xs ≠ []) (hrate : 0 < rate) :
    (apply_interest s rate).2 = Msg.interestApplied ∧
    count_accounts (apply_interest s rate).1.data = count_accounts s.data ∧
    (∀ i a, read_account_at s.data i = some a →
      (isActiveSavings a = true →
        read_account_at (apply_interest s rate).1.data i =
          some { a with balance := a.balance + a.balance * (rate / 100) / 12 }) ∧
      (isActiveSavings a = false →
        read_account_at (apply_interest s rate).1.data i = some a)) ∧
    (apply_interest s rate).1.trans =
      s.trans ++ (xs.filter (fun a => isActiveSavings a)).map (fun a =>
        { acc_no := a.acc_no, type := "INTEREST",
          amount := a.balance * (rate / 100) / 12,
          balance_after := a.balance + a.balance * (rate / 100) / 12 }) := by
  have hr : ¬ rate ≤ 0 := Double.not_le_zero_of_pos hrate
  have hc : ¬ count_accounts (some xs) = 0 := by
    simp [count_accounts, hne]
  have hres : apply_interest s rate =
      ({ data := some (apply_interest_loop rate xs s.trans).1,
         trans := (apply_interest_loop rate xs s.trans).2 }, Msg.interestApplied) := by
    simp only [apply_interest, if_neg hr, if_neg hc, hdata]
  rw [hres, apply_interest_loop_eq]
  refine ⟨rfl, ?_, ?_, rfl⟩
  · simp [count_accounts, hdata]
  · intro i a hread
    rw [hdata] at hread
    simp only [read_account_at] at hread
    constructor
    · intro hs
      simp [read_account_at, List.getElem?_map, hread, hs, credited]
    · intro hs
      simp [read_account_at, List.getElem?_map, hread, hs]

/-- C5, amended, at the scenario of the specification: an active Savings account with balance 1200
at 12 percent becomes 1212 with the single log entry `INTEREST(12,1212)`, and the
Current account in the same store is untouched. -/
theorem apply_interest_postcondition_witness :
    read_account_at (apply_interest interestBank 12).1.data 0 =
      some { savings1200 with balance := 1212 } ∧
    read_account_at (apply_interest interestBank 12).1.data 1 = some current1002 ∧
    (apply_interest interestBank 12).1.trans =
      [{ acc_no := 1001, type := "INTEREST", amount := 12, balance_after := 1212 }] := by
  have h := apply_interest_postcondition interestBank [savings1200, current1002] 12 rfl
    (by decide) (by decide)
  have h0 := (h.2.2.1 0 savings1200 (by decide)).1 (by decide)
  have h1 := (h.2.2.1 1 current1002 (by decide)).2 (by decide)
  have ht := h.2.2.2
  have e1 : savings1200.balance * ((12 : Double) / 100) / 12 = 12 := by decide
  have e2 : savings1200.balance + 12 = 1212 := by decide
  rw [e1, e2] at h0
  have hf : List.filter (fun a => isActiveSavings a) [savings1200, current1002] =
      [savings1200] := by decide
  rw [hf] at ht
  refine ⟨h0, h1, ?_⟩
  rw [ht]
  simp only [List.map, e1, e2]
  rfl

/-! ## Frame facts: what an operation can change -/

theorem frame_refl (f : Option (List Account)) : Frame f f :=
  ⟨rfl, fun _ a h => ⟨a, h, rfl, fun _ => rfl⟩⟩

theorem frame_trans {f g h : Option (List Account)} (h1 : Frame f g) (h2 : Frame g h) :
    Frame f h := by
  refine ⟨h2.1.trans h1.1, fun p a ha => ?_⟩
  obtain ⟨b, hb, hbn, hba⟩ := h1.2 p a ha
  obtain ⟨c, hc, hcn, hcb⟩ := h2.2 p b hb
  refine ⟨c, hc, hcn.trans hbn, fun h0 => ?_⟩
  have hb0 : b = a := hba h0
  have : b.active = 0 := by rw [hb0]; exact h0
  exact (hcb this).trans hb0

theorem frame_set (xs : List Account) (pos : Nat) (a b : Account)
    (hget : xs[pos]? = some a) (hact : a.active ≠ 0) (hno : b.acc_no = a.acc_no) :
    Frame (some xs) (some (xs.set pos b)) := by
  refine ⟨by simp [count_accounts], fun p c hc => ?_⟩
  simp only [read_account_at] at hc ⊢
  by_cases hp : pos = p
  · subst hp
    have hca : c = a := by rw [hget] at hc; exact (Option.some.inj hc).symm
    have hlt : pos < xs.length := by
      by_contra hlt
      rw [List.getElem?_eq_none (Nat.le_of_not_lt hlt)] at hget
      exact Option.noConfusion hget
    refine ⟨b, List.getElem?_set_self hlt, by rw [hca]; exact hno, fun h0 => ?_⟩
    rw [hca] at h0
    exact absurd h0 hact
  · exact ⟨c, by rw [List.getElem?_set_ne hp]; exact hc, rfl, fun _ => rfl⟩

theorem read_account_at_none_iff (f : Option (List Account)) (p : Nat) :
    read_account_at f p = none ↔ count_accounts f ≤ p := by
  cases f with
  | none => simp [read_account_at, count_accounts]
  | some xs => simp [read_account_at, count_accounts]

theorem acc_nos_getElem? (f : Option (List Account)) (p : Nat) :
    (acc_nos f)[p]? = (read_account_at f p).map Account.acc_no := by
  cases f with
  | none => simp [acc_nos, read_account_at]
  | some xs => simp [acc_nos, read_account_at, List.getElem?_map]

theorem frame_acc_nos {f g : Option (List Account)} (h : Frame f g) :
    acc_nos g = acc_nos f := by
  apply List.ext_getElem?
  intro p
  rw [acc_nos_getElem?, acc_nos_getElem?]
  cases hf : read_account_at f p with
  | none =>
    have hg : read_account_at g p = none := by
      rw [read_account_at_none_iff] at hf ⊢
      rw [h.1]; exact hf
    rw [hg]
  | some a =>
    obtain ⟨b, hb, hbn, -⟩ := h.2 p a hf
    rw [hb]
    simp [hbn]

/-! ## The scan of `get_next_acc_no` -/

theorem get_next_acc_no_loop_ge (xs : List Account) (m : Int) :
    m ≤ get_next_acc_no_loop xs m ∧ ∀ a ∈ xs, a.acc_no ≤ get_next_acc_no_loop xs m := by
  induction xs generalizing m with
  | nil => simp [get_next_acc_no_loop]
  | cons x rest ih =>
    unfold get_next_acc_no_loop
    obtain ⟨h1, h2⟩ := ih (if x.acc_no > m then x.acc_no else m)
    have h3 : m ≤ (if x.acc_no > m then x.acc_no else m) ∧
        x.acc_no ≤ (if x.acc_no > m then x.acc_no else m) := by
      split_ifs <;> omega
    refine ⟨le_trans h3.1 h1, ?_⟩
    intro a ha
    rcases List.mem_cons.mp ha with rfl | ha
    · exact le_trans h3.2 h1
    · exact h2 a ha

theorem get_next_acc_no_loop_attained (xs : List Account) (m : Int) :
    get_next_acc_no_loop xs m = m ∨ ∃ a ∈ xs, get_next_acc_no_loop xs m = a.acc_no := by
  induction xs generalizing m with
  | nil => simp [get_next_acc_no_loop]
  | cons x rest ih =>
    unfold get_next_acc_no_loop
    rcases ih (if x.acc_no > m then x.acc_no else m) with h | ⟨a, ha, h⟩
    · by_cases hx : x.acc_no > m
      · rw [if_pos hx] at h ⊢
        exact Or.inr ⟨x, List.mem_cons_self _ _, h⟩
      · rw [if_neg hx] at h ⊢
        exact Or.inl h
    · exact Or.inr ⟨a, List.mem_cons_of_mem _ ha, h⟩

theorem get_next_acc_no_loop_map (xs ys : List Account) (m : Int)
    (h : xs.map Account.acc_no = ys.map Account.acc_no) :
    get_next_acc_no_loop xs m = get_next_acc_no_loop ys m := by
  induction xs generalizing ys m with
  | nil =>
    cases ys with
    | nil => rfl
    | cons y ys => simp at h
  | cons x rest ih =>
    cases ys with
    | nil => simp at h
    | cons y ys =>
      simp only [List.map_cons, List.cons.injEq] at h
      unfold get_next_acc_no_loop
      rw [h.1]
      exact ih ys _ h.2

theorem get_next_acc_no_congr {f g : Option (List Account)} (h : acc_nos f = acc_nos g) :
    get_next_acc_no f = get_next_acc_no g := by
  cases f with
  | none =>
    cases g with
    | none => rfl
    | some ys =>
      cases ys with
      | nil => rfl
      | cons y ys => simp [acc_nos] at h
  | some xs =>
    cases g with
    | none =>
      cases xs with
      | nil => rfl
      | cons x xs => simp [acc_nos] at h
    | some ys =>
      simp only [get_next_acc_no]
      rw [get_next_acc_no_loop_map xs ys 1000 h]

theorem close_account_frame (s : Bank) (n : Int) (c : Char) :
    Frame s.data (close_account s n c).1.data := by
  unfold close_account
  cases hpos : find_account_pos s.data n with
  | none => exact frame_refl _
  | some pos =>
    obtain ⟨xs, a, hdata, hlt, hget, hno, -⟩ := find_account_pos_some hpos
    have hread : read_account_at s.data pos = some a := by rw [hdata]; exact hget
    simp only [hread]
    by_cases hact : a.active = 0
    · simp only [if_pos hact]; exact frame_refl _
    · simp only [if_neg hact]
      by_cases hc : c = 'y' ∨ c = 'Y'
      · simp only [if_pos hc]
        rw [hdata, write_account_at_of_lt xs _ hlt]
        exact frame_set xs pos a _ hget hact rfl
      · simp only [if_neg hc]; exact frame_refl _

/-! ## Runs, and the frame of every operation -/

theorem reachable_run {s s1 : Bank} (ops : List Op) (h : Reachable s)
    (hrun : run s ops = some s1) : Reachable s1 := by
  induction ops generalizing s with
  | nil =>
    simp only [run] at hrun
    rw [← Option.some.inj hrun]; exact h
  | cons op ops ih =>
    simp only [run] at hrun
    cases hstep : step s op with
    | none => rw [hstep] at hrun; exact Option.noConfusion hrun
    | some s2 =>
      rw [hstep] at hrun
      exact ih (Reachable.step s s2 op h hstep) hrun

theorem deposit_amount_frame (s : Bank) (n : Int) (amt : Double) :
    Frame s.data (deposit_amount s n amt).1.data := by
  unfold deposit_amount
  cases hpos : find_account_pos s.data n with
  | none => exact frame_refl _
  | some pos =>
    obtain ⟨xs, a, hdata, hlt, hget, hno, -⟩ := find_account_pos_some hpos
    have hread : read_account_at s.data pos = some a := by rw [hdata]; exact hget
    simp only [hread]
    by_cases hact : a.active = 0
    · simp only [if_pos hact]; exact frame_refl _
    · simp only [if_neg hact]
      by_cases hamt : amt ≤ 0
      · simp only [if_pos hamt]; exact frame_refl _
      · simp only [if_neg hamt]
        rw [hdata, write_account_at_of_lt xs _ hlt]
        exact frame_set xs pos a _ hget hact rfl

theorem withdraw_amount_frame (s : Bank) (n : Int) (amt : Double) :
    Frame s.data (withdraw_amount s n amt).1.data := by
  unfold withdraw_amount
  cases hpos : find_account_pos s.data n with
  | none => exact frame_refl _
  | some pos =>
    obtain ⟨xs, a, hdata, hlt, hget, hno, -⟩ := find_account_pos_some hpos
    have hread : read_account_at s.data pos = some a := by rw [hdata]; exact hget
    simp only [hread]
    by_cases hact : a.active = 0
    · simp only [if_pos hact]; exact frame_refl _
    · simp only [if_neg hact]
      by_cases hamt : amt ≤ 0
      · simp only [if_pos hamt]; exact frame_refl _
      · simp only [if_neg hamt]
        by_cases hfl : strcasecmp_eq a.type "Savings" = true ∧ a.balance - amt < 0
        · simp only [if_pos hfl]; exact frame_refl _
        · simp only [if_neg hfl]
          rw [hdata, write_account_at_of_lt xs _ hlt]
          exact frame_set xs pos a _ hget hact rfl

theorem modify_account_frame (s : Bank) (n : Int) (phone address type : String) :
    Frame s.data (modify_account s n phone address type).1.data := by
  unfold modify_account
  cases hpos : find_account_pos s.data n with
  | none => exact frame_refl _
  | some pos =>
    obtain ⟨xs, a, hdata, hlt, hget, hno, -⟩ := find_account_pos_some hpos
    have hread : read_account_at s.data pos = some a := by rw [hdata]; exact hget
    simp only [hread]
    by_cases hact : a.active = 0
    · simp only [if_pos hact]; exact frame_refl _
    · simp only [if_neg hact]
      rw [hdata, write_account_at_of_lt xs _ hlt]
      apply frame_set xs pos a _ hget hact
      split_ifs <;> rfl

theorem transfer_amount_frame (s : Bank) (src dst : Int) (amt : Double) :
    Frame s.data (transfer_amount s src dst amt).1.data := by
  unfold transfer_amount
  cases hpf : find_account_pos s.data src with
  | none => exact frame_refl _
  | some pos_from =>
    obtain ⟨xs, a, hdata, hltf, hgetf, -, -⟩ := find_account_pos_some hpf
    have hreadf : read_account_at s.data pos_from = some a := by rw [hdata]; exact hgetf
    simp only [hreadf]
    by_cases hfa : a.active = 0
    · simp only [if_pos hfa]; exact frame_refl _
    · simp only [if_neg hfa]
      cases hpt : find_account_pos s.data dst with
      | none => exact frame_refl _
      | some pos_to =>
        obtain ⟨ys, b, hdata2, hltt, hgett, -, -⟩ := find_account_pos_some hpt
        have hxy : ys = xs := by
          rw [hdata] at hdata2
          exact (Option.some.inj hdata2).symm
        subst hxy
        have hreadt : read_account_at s.data pos_to = some b := by rw [hdata]; exact hgett
        simp only [hreadt]
        by_cases hta : b.active = 0
        · simp only [if_pos hta]; exact frame_refl _
        · simp only [if_neg hta]
          by_cases hamt : amt ≤ 0
          · simp only [if_pos hamt]; exact frame_refl _
          · simp only [if_neg hamt]
            by_cases hfl : strcasecmp_eq a.type "Savings" = true ∧ a.balance - amt < 0
            · simp only [if_pos hfl]; exact frame_refl _
            · simp only [if_neg hfl]
              have hltt2 :
                  pos_to < (ys.set pos_from { a with balance := a.balance - amt }).length := by
                simpa using hltt
              rw [hdata, write_account_at_of_lt ys _ hltf]
              simp only [write_account_at_of_lt _ _ hltt2]
              have h1 : Frame (some ys)
                  (some (ys.set pos_from { a with balance := a.balance - amt })) :=
                frame_set ys pos_from a _ hgetf hfa rfl
              have hex : ∃ c, (ys.set pos_from { a with balance := a.balance - amt })[pos_to]?
                    = some c ∧ c.active ≠ 0 ∧ b.acc_no = c.acc_no := by
                by_cases hp : pos_from = pos_to
                · subst hp
                  have hab : a = b := by
                    rw [hgetf] at hgett; exact Option.some.inj hgett
                  exact ⟨_, List.getElem?_set_self hltf, hfa, by rw [hab]⟩
                · exact ⟨b, by rw [List.getElem?_set_ne hp]; exact hgett, hta, rfl⟩
              obtain ⟨c, hc, hca, hcn⟩ := hex
              exact frame_trans h1 (frame_set _ pos_to c _ hc hca hcn)

theorem apply_interest_frame (s : Bank) (rate : Double) :
    Frame s.data (apply_interest s rate).1.data := by
  unfold apply_interest
  by_cases hr : rate ≤ 0
  · simp only [if_pos hr]; exact frame_refl _
  · simp only [if_neg hr]
    by_cases hc : count_accounts s.data = 0
    · simp only [if_pos hc]; exact frame_refl _
    · simp only [if_neg hc]
      cases hdata : s.data with
      | none => simp only [hdata]; exact frame_refl _
      | some xs =>
        simp only [apply_interest_loop_eq]
        refine ⟨by simp [count_accounts], fun p a ha => ?_⟩
        simp only [read_account_at] at ha
        simp only [read_account_at, List.getElem?_map, ha, Option.map_some']
        by_cases hs : isActiveSavings a = true
        · refine ⟨credited rate a, by simp [hs], rfl, fun h0 => ?_⟩
          simp [isActiveSavings, h0] at hs
        · exact ⟨a, by simp [hs], rfl, fun _ => rfl⟩

/-- `create_account` appends: every record already stored stays where it is. -/
theorem create_account_keeps (s s1 : Bank) (name : String) (types : List String)
    (balance : Double) (phone address : String) (m : Msg)
    (h : create_account s name types balance phone address = some (s1, m)) :
    ∃ ty, read_account_type types = some ty ∧
      s1.data = append_account s.data
        { zeroAccount with
          acc_no := get_next_acc_no s.data, name := name, type := ty, balance := balance,
          phone := phone, address := address, active := 1 } ∧
      ∀ p a, read_account_at s.data p = some a → read_account_at s1.data p = some a := by
  unfold create_account at h
  cases hty : read_account_type types with
  | none => rw [hty] at h; exact Option.noConfusion h
  | some ty =>
    rw [hty] at h
    simp only [Option.some.injEq, Prod.mk.injEq] at h
    refine ⟨ty, rfl, by rw [← h.1], fun p a ha => ?_⟩
    rw [← h.1]
    obtain ⟨xs, hdata, hget, hlt⟩ := read_account_at_eq_some ha
    simp only [hdata, append_account, read_account_at]
    rw [List.getElem?_append_left hlt]; exact hget

/-- Every request other than a create leaves the store in frame. -/
theorem step_frame (s s1 : Bank) (op : Op) (h : step s op = some s1)
    (hop : ∀ name types balance phone address, op ≠ Op.create name types balance phone address) :
    Frame s.data s1.data := by
  cases op with
  | create name types balance phone address => exact absurd rfl (hop _ _ _ _ _)
  | deposit n amt =>
    simp only [step, Option.some.injEq] at h; rw [← h]; exact deposit_amount_frame s n amt
  | withdraw n amt =>
    simp only [step, Option.some.injEq] at h; rw [← h]; exact withdraw_amount_frame s n amt
  | modify n phone address type =>
    simp only [step, Option.some.injEq] at h; rw [← h]
    exact modify_account_frame s n phone address type
  | close n c =>
    simp only [step, Option.some.injEq] at h; rw [← h]; exact close_account_frame s n c
  | transfer src dst amt =>
    simp only [step, Option.some.injEq] at h; rw [← h]
    exact transfer_amount_frame s src dst amt
  | interest rate =>
    simp only [step, Option.some.injEq] at h; rw [← h]; exact apply_interest_frame s rate

/-- A request never changes or removes a stored closed record, and never changes the
account number at a position. -/
theorem step_keeps (s s1 : Bank) (op : Op) (h : step s op = some s1) (p : Nat) (a : Account)
    (ha : read_account_at s.data p = some a) :
    ∃ b, read_account_at s1.data p = some b ∧ b.acc_no = a.acc_no ∧ (a.active = 0 → b = a) := by
  cases op with
  | create name types balance phone address =>
    simp only [step] at h
    cases hc : create_account s name types balance phone address with
    | none => rw [hc] at h; simp at h
    | some r =>
      rw [hc] at h
      simp only [Option.map_some', Option.some.injEq] at h
      obtain ⟨ty, -, -, hkeep⟩ := create_account_keeps s r.1 name types balance phone address r.2 hc
      rw [← h]
      exact ⟨a, hkeep p a ha, rfl, fun _ => rfl⟩
  | deposit n amt => exact (step_frame s s1 _ h (by intros; simp)).2 p a ha
  | withdraw n amt => exact (step_frame s s1 _ h (by intros; simp)).2 p a ha
  | modify n phone address type => exact (step_frame s s1 _ h (by intros; simp)).2 p a ha
  | close n c => exact (step_frame s s1 _ h (by intros; simp)).2 p a ha
  | transfer src dst amt => exact (step_frame s s1 _ h (by intros; simp)).2 p a ha
  | interest rate => exact (step_frame s s1 _ h (by intros; simp)).2 p a ha

/-! ## Account numbers in reachable states -/

theorem mem_acc_nos {f : Option (List Account)} {n : Int} (h : n ∈ acc_nos f) :
    ∃ xs a, f = some xs ∧ a ∈ xs ∧ a.acc_no = n := by
  cases f with
  | none => simp [acc_nos] at h
  | some xs =>
    simp only [acc_nos, List.mem_map] at h
    obtain ⟨a, ha, hn⟩ := h
    exact ⟨xs, a, rfl, ha, hn⟩

theorem get_next_acc_no_ge (f : Option (List Account)) : 1001 ≤ get_next_acc_no f := by
  cases f with
  | none => decide
  | some xs =>
    have := (get_next_acc_no_loop_ge xs 1000).1
    simp only [get_next_acc_no]; omega

theorem lt_get_next_acc_no {f : Option (List Account)} {n : Int} (h : n ∈ acc_nos f) :
    n < get_next_acc_no f := by
  obtain ⟨xs, a, rfl, ha, rfl⟩ := mem_acc_nos h
  have := (get_next_acc_no_loop_ge xs 1000).2 a ha
  simp only [get_next_acc_no]; omega

theorem acc_nos_append_account (f : Option (List Account)) (acc : Account) :
    acc_nos (append_account f acc) = acc_nos f ++ [acc.acc_no] := by
  cases f with
  | none => simp [acc_nos, append_account]
  | some xs => simp [acc_nos, append_account]

theorem read_mem_acc_nos {f : Option (List Account)} {p : Nat} {a : Account}
    (h : read_account_at f p = some a) : a.acc_no ∈ acc_nos f := by
  obtain ⟨xs, rfl, hget, -⟩ := read_account_at_eq_some h
  simp only [acc_nos, List.mem_map]
  exact ⟨a, List.getElem?_mem hget, rfl⟩

theorem step_good (s s1 : Bank) (op : Op) (hg : GoodNumbers s.data)
    (h : step s op = some s1) : GoodNumbers s1.data := by
  by_cases hop : ∀ name types balance phone address,
      op ≠ Op.create name types balance phone address
  · have hf := frame_acc_nos (step_frame s s1 op h hop)
    unfold GoodNumbers
    rw [hf]; exact hg
  · push_neg at hop
    obtain ⟨name, types, balance, phone, address, rfl⟩ := hop
    simp only [step] at h
    cases hc : create_account s name types balance phone address with
    | none => rw [hc] at h; simp at h
    | some r =>
      rw [hc] at h
      simp only [Option.map_some', Option.some.injEq] at h
      obtain ⟨ty, -, hdata, -⟩ :=
        create_account_keeps s r.1 name types balance phone address r.2 hc
      rw [h] at hdata
      unfold GoodNumbers
      rw [hdata, acc_nos_append_account]
      refine ⟨?_, ?_⟩
      · rw [List.pairwise_append]
        refine ⟨hg.1, List.pairwise_singleton _ _, ?_⟩
        intro a ha b hb
        rw [List.mem_singleton] at hb
        rw [hb]
        exact lt_get_next_acc_no ha
      · intro n hn
        rcases List.mem_append.mp hn with hn | hn
        · exact hg.2 n hn
        · rw [List.mem_singleton] at hn
          rw [hn]
          exact get_next_acc_no_ge s.data

theorem reachable_good (s : Bank) (h : Reachable s) : GoodNumbers s.data := by
  induction h with
  | init => exact ⟨List.Pairwise.nil, fun n hn => by simp [emptyBank, acc_nos] at hn⟩
  | initEmptyFile => exact ⟨List.Pairwise.nil, fun n hn => by simp [acc_nos] at hn⟩
  | step s s1 op _ hstep ih => exact step_good s s1 op ih hstep

theorem good_lt {f : Option (List Account)} (hg : GoodNumbers f) {p q : Nat} {a b : Account}
    (ha : read_account_at f p = some a) (hb : read_account_at f q = some b) (hpq : p < q) :
    a.acc_no < b.acc_no := by
  obtain ⟨xs, rfl, hgeta, hlta⟩ := read_account_at_eq_some ha
  obtain ⟨ys, hys, hgetb, hltb⟩ := read_account_at_eq_some hb
  have hxy : ys = xs := (Option.some.inj hys).symm
  subst hxy
  have hpw := hg.1
  simp only [acc_nos] at hpw
  rw [List.pairwise_iff_getElem] at hpw
  have := hpw p q (by simpa using hlta) (by simpa using hltb) hpq
  simp only [List.getElem_map] at this
  rw [List.getElem?_eq_getElem hlta] at hgeta
  rw [List.getElem?_eq_getElem hltb] at hgetb
  rw [Option.some.inj hgeta, Option.some.inj hgetb] at this
  exact this

theorem good_unique {f : Option (List Account)} (hg : GoodNumbers f) {p q : Nat}
    {a b : Account} (ha : read_account_at f p = some a) (hb : read_account_at f q = some b)
    (hab : a.acc_no = b.acc_no) : p = q := by
  rcases Nat.lt_trichotomy p q with h | h | h
  · have := good_lt hg ha hb h; omega
  · exact h
  · have := good_lt hg hb ha h; omega

theorem get_next_acc_no_loop_append (xs : List Account) (a : Account) (m : Int) :
    get_next_acc_no_loop (xs ++ [a]) m =
      if a.acc_no > get_next_acc_no_loop xs m then a.acc_no else get_next_acc_no_loop xs m := by
  induction xs generalizing m with
  | nil => simp [get_next_acc_no_loop]
  | cons x rest ih =>
    rw [List.cons_append]
    unfold get_next_acc_no_loop
    exact ih _

/-- Appending the record numbered `get_next_acc_no f` raises the next number by one. -/
theorem get_next_acc_no_append (f : Option (List Account)) (acc : Account)
    (h : acc.acc_no = get_next_acc_no f) :
    get_next_acc_no (append_account f acc) = get_next_acc_no f + 1 ∧
    count_accounts (append_account f acc) = count_accounts f + 1 := by
  cases f with
  | none =>
    simp only [get_next_acc_no] at h
    have hgt : acc.acc_no > 1000 := by omega
    simp only [append_account, get_next_acc_no, get_next_acc_no_loop, count_accounts,
      if_pos hgt, List.length_singleton]
    exact ⟨by omega, trivial⟩
  | some xs =>
    simp only [get_next_acc_no] at h
    have hgt : acc.acc_no > get_next_acc_no_loop xs 1000 := by omega
    simp only [append_account, get_next_acc_no, get_next_acc_no_loop_append, if_pos hgt,
      count_accounts, List.length_append, List.length_singleton]
    exact ⟨by omega, trivial⟩

/-- In a reachable state the stored numbers are 1001, 1002, ... without a gap, so the
next number is 1001 plus the number of records. -/
theorem reachable_next (s : Bank) (h : Reachable s) :
    get_next_acc_no s.data = 1001 + count_accounts s.data := by
  induction h with
  | init => decide
  | initEmptyFile => decide
  | step s s1 op _ hstep ih =>
    by_cases hop : ∀ name types balance phone address,
        op ≠ Op.create name types balance phone address
    · have hf := step_frame s s1 op hstep hop
      rw [get_next_acc_no_congr (frame_acc_nos hf), hf.1]
      exact ih
    · push_neg at hop
      obtain ⟨name, types, balance, phone, address, rfl⟩ := hop
      simp only [step] at hstep
      cases hc : create_account s name types balance phone address with
      | none => rw [hc] at hstep; simp at hstep
      | some r =>
        rw [hc] at hstep
        simp only [Option.map_some', Option.some.injEq] at hstep
        obtain ⟨ty, -, hdata, -⟩ :=
          create_account_keeps s r.1 name types balance phone address r.2 hc
        rw [hstep] at hdata
        obtain ⟨h1, h2⟩ := get_next_acc_no_append s.data
          { zeroAccount with
            acc_no := get_next_acc_no s.data, name := name, type := ty, balance := balance,
            phone := phone, address := address, active := 1 } rfl
        rw [hdata, h1, h2, ih]
        push_cast
        ring

/-! ## C6: the next account number -/

/-- C6. NextAccountNumber: in every state reachable from the empty store,
`get_next_acc_no` returns 1001 when the store is absent or empty and otherwise the
maximum of the account numbers of all stored records (closed ones included) plus one;
the result is 1001 plus the number of stored records; closing an account never changes
it; and after creating 1001 and 1002 and closing 1001 it returns 1003. -/
theorem get_next_acc_no_spec (s : Bank) (h : Reachable s) :
    (s.data = none ∨ s.data = some [] → get_next_acc_no s.data = 1001) ∧
    (∀ xs, s.data = some xs → xs ≠ [] →
      ∃ m ∈ xs, (∀ b ∈ xs, b.acc_no ≤ m.acc_no) ∧ get_next_acc_no s.data = m.acc_no + 1) ∧
    get_next_acc_no s.data = 1001 + count_accounts s.data ∧
    (∀ (n : Int) (c : Char),
      get_next_acc_no (close_account s n c).1.data = get_next_acc_no s.data) ∧
    (run emptyBank createCreateClose).map (fun s1 => get_next_acc_no s1.data) =
      some 1003 := by
  refine ⟨?_, ?_, reachable_next s h, ?_, ?_⟩
  · rintro (h0 | h0) <;> rw [h0] <;> rfl
  · intro xs hdata hne
    have hg := reachable_good s h
    obtain ⟨h1, h2⟩ := get_next_acc_no_loop_ge xs 1000
    rcases get_next_acc_no_loop_attained xs 1000 with h3 | ⟨m, hm, h3⟩
    · obtain ⟨a, ha⟩ := List.exists_mem_of_ne_nil xs hne
      have hge : 1001 ≤ a.acc_no := by
        apply hg.2
        rw [hdata]
        simp only [acc_nos, List.mem_map]
        exact ⟨a, ha, rfl⟩
      have := h2 a ha
      omega
    · refine ⟨m, hm, fun b hb => ?_, by rw [hdata]; simp only [get_next_acc_no, h3]⟩
      have := h2 b hb
      omega
  · intro n c
    exact get_next_acc_no_congr (frame_acc_nos (close_account_frame s n c))
  · decide

/-- C6, at a concrete reachable state: `createdBank` is reached by creating two
accounts; there the largest stored number is 1002 and the next number is 1003. -/
theorem get_next_acc_no_spec_witness :
    run emptyBank createCreate = some createdBank ∧
    (∃ m ∈ [savings1001, current1002],
      (∀ b ∈ [savings1001, current1002], b.acc_no ≤ m.acc_no) ∧
      get_next_acc_no createdBank.data = m.acc_no + 1) ∧
    get_next_acc_no createdBank.data = 1003 := by
  have hrun : run emptyBank createCreate = some createdBank := by decide
  have h := get_next_acc_no_spec createdBank (reachable_run _ Reachable.init hrun)
  exact ⟨hrun, h.2.1 [savings1001, current1002] rfl (by simp), by decide⟩

/-! ## C7: the Savings floor as an invariant -/

/-- C7 (evaluation of the code at the failing input). Starting with no files, creating a
Current account with initial balance 0, withdrawing 50 from it (Current accounts have no
floor) and then changing its type to Savings with `modify_account` is accepted at every
step and leads to `retypedBank`: a reachable state whose only record is an active
Savings account with balance -50. -/
theorem savings_floor_broken_by_modify :
    run emptyBank overdrawThenRetype = some retypedBank ∧ Reachable retypedBank ∧
    ∃ a, read_account_at retypedBank.data 0 = some a ∧
      strcasecmp_eq a.type "Savings" = true ∧ a.balance < 0 := by
  have hrun : run emptyBank overdrawThenRetype = some retypedBank := by decide
  refine ⟨hrun, reachable_run _ Reachable.init hrun, ?_⟩
  exact ⟨_, rfl, by decide, by decide⟩

/-! ## C8: closed accounts are frozen -/

/-- C8. Closed accounts are frozen: when the account number `n` resolves to the record
`acc` at position `pos` and `acc.active = 0`, then Deposit, Withdraw, Modify and Close on
`n` and Transfer with `n` as source are rejected with the closed-account message of that
operation (`Account already closed` for Close) and return the state (store and log)
unchanged; Transfer with `n` as destination is rejected too (source not found, source
closed or destination closed) with the state unchanged; ApplyInterest leaves the
record at `pos` unchanged; and after any single request every stored closed record is
still stored at its position, identical, so still closed. -/
theorem closed_account_frozen (s : Bank) (n : Int) (pos : Nat) (acc : Account)
    (hpos : find_account_pos s.data n = some pos)
    (hacc : read_account_at s.data pos = some acc)
    (hclosed : acc.active = 0) :
    (∀ amt, deposit_amount s n amt = (s, Msg.accountIsClosed)) ∧
    (∀ amt, withdraw_amount s n amt = (s, Msg.accountIsClosed)) ∧
    (∀ phone address type,
      modify_account s n phone address type = (s, Msg.accountIsClosed)) ∧
    (∀ c, close_account s n c = (s, Msg.accountAlreadyClosed)) ∧
    (∀ dst amt, transfer_amount s n dst amt = (s, Msg.sourceIsClosed)) ∧
    (∀ src amt, (transfer_amount s src n amt).1 = s ∧
      ((transfer_amount s src n amt).2 = Msg.sourceNotFound ∨
       (transfer_amount s src n amt).2 = Msg.sourceIsClosed ∨
       (transfer_amount s src n amt).2 = Msg.destinationIsClosed)) ∧
    (∀ rate, read_account_at (apply_interest s rate).1.data pos = some acc) ∧
    (∀ op s1, step s op = some s1 → ∀ p a, read_account_at s.data p = some a →
      a.active = 0 → read_account_at s1.data p = some a) := by
  refine ⟨?_, ?_, ?_, ?_, ?_, ?_, ?_, ?_⟩
  · intro amt
    simp only [deposit_amount, hpos, hacc, if_pos hclosed]
  · intro amt
    simp only [withdraw_amount, hpos, hacc, if_pos hclosed]
  · intro phone address type
    simp only [modify_account, hpos, hacc, if_pos hclosed]
  · intro c
    simp only [close_account, hpos, hacc, if_pos hclosed]
  · intro dst amt
    simp only [transfer_amount, hpos, hacc, if_pos hclosed]
  · intro src amt
    unfold transfer_amount
    cases hpf : find_account_pos s.data src with
    | none => exact ⟨rfl, Or.inl rfl⟩
    | some pos_from =>
      obtain ⟨xs, a, hdata, hltf, hgetf, -, -⟩ := find_account_pos_some hpf
      have hreadf : read_account_at s.data pos_from = some a := by rw [hdata]; exact hgetf
      simp only [hreadf]
      by_cases hfa : a.active = 0
      · simp [if_pos hfa]
      · simp [if_neg hfa, hpos, hacc, if_pos hclosed]
  · intro rate
    obtain ⟨b, hb, -, hba⟩ := (apply_interest_frame s rate).2 pos acc hacc
    rw [hb, hba hclosed]
  · intro op s1 hstep p a ha h0
    obtain ⟨b, hb, -, hba⟩ := step_keeps s s1 op hstep p a ha
    rw [hb, hba h0]

/-- C8, at a concrete input: in `closedBank` account 1001 is closed; a second Close
returns the state unchanged with `Account already closed`, and a deposit is refused. -/
theorem closed_account_frozen_witness :
    close_account closedBank 1001 'y' = (closedBank, Msg.accountAlreadyClosed) ∧
    deposit_amount closedBank 1001 10 = (closedBank, Msg.accountIsClosed) :=
  have h := closed_account_frozen closedBank 1001 0 closed1001 (by decide) (by decide)
    (by decide)
  ⟨h.2.2.2.1 'y', h.1 10⟩

/-! ## C9: account numbers -/

/-- C9. Account numbers are positive, unique and immutable: in every state reachable
from the empty store by Create, Deposit, Withdraw, Modify, Close, Transfer and
ApplyInterest requests, every stored record has a positive account number; two
positions holding the same account number are the same position; after any further
request every position still holds a record with the account number it held before;
a Create appends one record whose number is `get_next_acc_no` and is strictly greater
than every number already stored; and `find_account_pos` returns the position of a
record whenever it is asked for that record's number (its first match is the only
match). -/
theorem account_numbers_invariant (s : Bank) (h : Reachable s) :
    (∀ p a, read_account_at s.data p = some a → 0 < a.acc_no) ∧
    (∀ p q a b, read_account_at s.data p = some a → read_account_at s.data q = some b →
      a.acc_no = b.acc_no → p = q) ∧
    (∀ op s1, step s op = some s1 → ∀ p a, read_account_at s.data p = some a →
      ∃ b, read_account_at s1.data p = some b ∧ b.acc_no = a.acc_no) ∧
    (∀ name types balance phone address s1 m,
      create_account s name types balance phone address = some (s1, m) →
      ∃ b, read_account_at s1.data (count_accounts s.data) = some b ∧
        count_accounts s1.data = count_accounts s.data + 1 ∧
        b.acc_no = get_next_acc_no s.data ∧
        ∀ p a, read_account_at s.data p = some a → a.acc_no < b.acc_no) ∧
    (∀ n p a, read_account_at s.data p = some a → a.acc_no = n →
      find_account_pos s.data n = some p) := by
  have hg := reachable_good s h
  refine ⟨?_, ?_, ?_, ?_, ?_⟩
  · intro p a ha
    have := hg.2 _ (read_mem_acc_nos ha)
    omega
  · intro p q a b ha hb hab
    exact good_unique hg ha hb hab
  · intro op s1 hstep p a ha
    obtain ⟨b, hb, hbn, -⟩ := step_keeps s s1 op hstep p a ha
    exact ⟨b, hb, hbn⟩
  · intro name types balance phone address s1 m hc
    obtain ⟨ty, -, hdata, -⟩ := create_account_keeps s s1 name types balance phone address m hc
    refine ⟨{ zeroAccount with
        acc_no := get_next_acc_no s.data, name := name, type := ty, balance := balance,
        phone := phone, address := address, active := 1 }, ?_, ?_, rfl, ?_⟩
    · rw [hdata]
      cases s.data with
      | none => simp [append_account, read_account_at, count_accounts]
      | some xs => simp [append_account, read_account_at, count_accounts]
    · rw [hdata]
      cases s.data with
      | none => simp [append_account, count_accounts]
      | some xs => simp [append_account, count_accounts]
    · intro p a ha
      exact lt_get_next_acc_no (read_mem_acc_nos ha)
  · intro n p a ha hn
    obtain ⟨xs, hdata, hget, hlt⟩ := read_account_at_eq_some ha
    cases hfind : find_account_pos s.data n with
    | none =>
      rw [hdata] at hfind
      simp only [find_account_pos] at hfind
      exact absurd hn (find_account_pos_loop_none.mp hfind a (List.getElem?_mem hget))
    | some q =>
      obtain ⟨ys, b, hdata2, hltq, hgetq, hbn, -⟩ := find_account_pos_some hfind
      have hb : read_account_at s.data q = some b := by rw [hdata2]; exact hgetq
      rw [good_unique hg hb ha (hbn.trans hn.symm)]

/-- C9, at a concrete reachable state: after creating 1001 and 1002 the store is
`createdBank`, and there `find_account_pos` resolves 1002 to position 1. -/
theorem account_numbers_invariant_witness :
    run emptyBank createCreate = some createdBank ∧
    find_account_pos createdBank.data 1002 = some 1 := by
  have hrun : run emptyBank createCreate = some createdBank := by decide
  exact ⟨hrun,
    (account_numbers_invariant createdBank (reachable_run _ Reachable.init hrun)).2.2.2.2
      1002 1 current1002 (by decide) (by decide)⟩

/-! ## C10: the stored account type -/

/-- C10 (evaluation of the code at the failing inputs). The struct comment says the
field `type` holds `Savings` or `Current`, but nothing normalises the typed line:
creating the first account with the type typed as `savings` succeeds and stores the
type as `savings`, and changing the type of account 1001 of `twoAccounts` with the line
`CURRENT` stores `CURRENT`. Neither stored value is one of the canonical strings
`Savings`, `Current`. -/
theorem stored_type_not_normalized :
    create_account emptyBank "Asha" ["savings"] 100 "555" "Pune" =
      some (lowercaseBank, Msg.accountCreated) ∧
    (read_account_at lowercaseBank.data 0).map Account.type = some "savings" ∧
    (read_account_at (modify_account twoAccounts 1001 "" "" "CURRENT").1.data 0).map
      Account.type = some "CURRENT" ∧
    "savings" ≠ "Savings" ∧ "savings" ≠ "Current" ∧
    "CURRENT" ≠ "Savings" ∧ "CURRENT" ≠ "Current" := by
  decide

/-! ## C11: the transactions shown by `display_account` -/

/-- With fewer than 10 lines shown so far, the loop prints the first `10 - shown`
matching lines of the rest of the log. -/
theorem display_account_loop_eq (t : List Transaction) (acc_no : Int) (shown : Nat)
    (h : shown < 10) :
    display_account_loop t acc_no shown =
      (t.filter (fun l => decide (l.acc_no = acc_no))).take (10 - shown) := by
  induction t generalizing shown with
  | nil => simp [display_account_loop]
  | cons line rest ih =>
    unfold display_account_loop
    by_cases hm : line.acc_no = acc_no
    · rw [if_pos hm, List.filter_cons_of_pos (by simpa using hm)]
      obtain ⟨k, hk⟩ : ∃ k, 10 - shown = k + 1 := ⟨10 - shown - 1, by omega⟩
      rw [hk, List.take_succ_cons]
      by_cases hlast : shown + 1 ≥ 10
      · rw [if_pos hlast]
        have hk0 : k = 0 := by omega
        rw [hk0, List.take_zero]
      · rw [if_neg hlast, ih (shown + 1) (by omega)]
        have hk1 : 10 - (shown + 1) = k := by omega
        rw [hk1]
    · rw [if_neg hm, List.filter_cons_of_neg (by simpa using hm)]
      exact ih shown h

/-- C11. The transactions `display_account` shows are a forward scan that stops at the
limit 10: for every log `t` and every account number, the lines shown are the first 10
lines of `t` whose account number equals the requested one (all of them when there are
fewer), in file order; their count is the minimum of 10 and the number of matching
lines; every line shown belongs to the requested account; the lines shown are a
subsequence of the log; a matching line after the tenth match is not shown even when it
is newer; and `display_account` on a number resolving to an active record prints that
record followed by exactly these lines. -/
theorem display_recent_forward_scan (t : List Transaction) (acc_no : Int) :
    display_account_loop t acc_no 0 =
      (t.filter (fun l => decide (l.acc_no = acc_no))).take 10 ∧
    (display_account_loop t acc_no 0).length =
      min 10 (t.filter (fun l => decide (l.acc_no = acc_no))).length ∧
    (∀ l ∈ display_account_loop t acc_no 0, l.acc_no = acc_no) ∧
    List.Sublist (display_account_loop t acc_no 0) t ∧
    (∀ later : List Transaction,
      10 ≤ (t.filter (fun l => decide (l.acc_no = acc_no))).length →
      display_account_loop (t ++ later) acc_no 0 = display_account_loop t acc_no 0) ∧
    (∀ (d : Option (List Account)) (pos : Nat) (acc : Account),
      find_account_pos d acc_no = some pos → read_account_at d pos = some acc →
      acc.active ≠ 0 →
      display_account { data := d, trans := t } acc_no =
        Display.details acc (display_account_loop t acc_no 0)) := by
  have heq := display_account_loop_eq t acc_no 0 (by decide)
  simp only [Nat.sub_zero] at heq
  refine ⟨heq, ?_, ?_, ?_, ?_, ?_⟩
  · rw [heq, List.length_take]
  · intro l hl
    rw [heq] at hl
    have hf := List.mem_of_mem_take hl
    simpa using (List.mem_filter.mp hf).2
  · rw [heq]
    exact (List.take_sublist _ _).trans (List.filter_sublist _)
  · intro later hlen
    have heq2 := display_account_loop_eq (t ++ later) acc_no 0 (by decide)
    simp only [Nat.sub_zero] at heq2
    rw [heq, heq2, List.filter_append, List.take_append_of_le_length hlen]
  · intro d pos acc hpos hacc hact
    simp only [display_account, hpos, hacc, if_neg hact]

/-- C11, at a concrete input: `busyLog` holds twelve lines of account 1001; for the
active account 1001 `display_account` shows the ten oldest of them, in file order,
without the lines of account 1002 and without the two newest lines of 1001. -/
theorem display_recent_forward_scan_witness :
    display_account busyBank 1001 =
      Display.details savings1001
        [dep1001 101, dep1001 102, dep1001 103, dep1001 104, dep1001 105, dep1001 106,
         dep1001 107, dep1001 108, dep1001 109, dep1001 110] := by
  have h := display_recent_forward_scan busyLog 1001
  have hshown : display_account_loop busyLog 1001 0 =
      [dep1001 101, dep1001 102, dep1001 103, dep1001 104, dep1001 105, dep1001 106,
       dep1001 107, dep1001 108, dep1001 109, dep1001 110] := by
    rw [h.1]; decide
  have hd := h.2.2.2.2.2 (some [savings1001, current1002]) 0 savings1001
    (by decide) (by decide) (by decide)
  rw [hshown] at hd
  exact hd

end BankSystem
